import Mathlib

/-!
# Verification of the ShengJiStar game engine

A shallow embedding of the Shengji game engine found in `src/env/Game.py` and
`src/env/utils.py`, together with theorems settling the frozen claims about it.

Conventions of the embedding:
* Python card strings such as "2♦", "XJ", "DJ" become the inductive type `Card`.
* A Python `CardSet` (a multiset of cards) is represented as a `List Card`;
  all operations are order-insensitive at the level of card counts.
* Python `assert` failures, `StopIteration` on an exhausted deck iterator, and
  index errors are modelled by `Option`: a failing call returns `none` and
  produces no successor state.
* Python `float` rewards are modelled as exact rationals (`ℚ`).
* The repository imports `env/CardSet.py`, `env/Actions.py` and
  `env/Observation.py`, which are not part of the sources; the handful of
  operations from those files that the engine calls are modelled from the
  specification and are marked `Modelled from the spec:` in their doc comments.
* The two sources of nondeterminism that live in missing code — the random
  seat chosen by `AbsolutePosition.random()` and the verdict of
  `CardSet.is_legal_combo` — are supplied to each step as an explicit
  `Oracle` value, so every run of the engine is a deterministic function of
  the oracle sequence.
-/

set_option maxRecDepth 10000

namespace ShengJi

/-- The four natural (printed) suits of a card. -/
inductive NatSuit : Type
  | diamond
  | club
  | heart
  | spade
  deriving DecidableEq, Repr

/-- A card identity: one of the 52 standard cards (rank 2..14) or a joker.
`xj` is the small joker ("XJ"), `dj` the big joker ("DJ"). -/
inductive Card : Type
  | norm (s : NatSuit) (r : Nat)
  | xj
  | dj
  deriving DecidableEq, Repr

/-- `TrumpSuit` from `src/env/utils.py`: all possible suits of a trump
declaration, including the two no-suit joker markers. -/
inductive TrumpSuit : Type
  | club
  | spade
  | heart
  | diamond
  | xj
  | dj
  deriving DecidableEq, Repr

/-- `TrumpSuit.is_NT` from `src/env/utils.py`. -/
def TrumpSuit.is_NT : TrumpSuit → Bool
  | .xj => true
  | .dj => true
  | _ => false

/-- Python compares the string value of a card's suit with the string value of
a `TrumpSuit`; the four suit symbols compare equal across the two enums and
the joker markers never equal a suit symbol. -/
def TrumpSuit.matchesNat : TrumpSuit → NatSuit → Bool
  | .club, .club => true
  | .spade, .spade => true
  | .heart, .heart => true
  | .diamond, .diamond => true
  | _, _ => false

/-- `CardSuit` from `src/env/utils.py`: the effective suit of a card in play
(one of the four natural suits, or trump). -/
inductive CardSuit : Type
  | club
  | spade
  | heart
  | diamond
  | trump
  deriving DecidableEq, Repr

/-- The natural suit of a card, as a `CardSuit`. -/
def NatSuit.toCardSuit : NatSuit → CardSuit
  | .club => .club
  | .spade => .spade
  | .heart => .heart
  | .diamond => .diamond

/-- `get_suit` from `src/env/utils.py`: determines whether the card is trump
under the given trump context and otherwise returns its natural suit. -/
def get_suit (card : Card) (dominant_suit : TrumpSuit) (dominant_rank : Nat) : CardSuit :=
  match card with
  | .xj => .trump
  | .dj => .trump
  | .norm s r =>
    if r = dominant_rank ∨ dominant_suit.matchesNat s then .trump
    else s.toCardSuit

/-- `get_rank` from `src/env/utils.py`: the effective rank of a card within
its suit under the given trump context. -/
def get_rank (card : Card) (dominant_suit : TrumpSuit) (dominant_rank : Nat) : Nat :=
  match card with
  | .dj => 18
  | .xj => 17
  | .norm s r =>
    if r = dominant_rank ∧ (dominant_suit.matchesNat s ∨ dominant_suit.is_NT) then 16
    else if r = dominant_rank then 15
    else if r < dominant_rank then r + 1
    else r

/-! ## Multiset operations on lists of cards

The Python `CardSet` (from the missing `env/CardSet.py`) is a mapping from
card identity to a non-negative count.  We represent it as a `List Card` and
give its operations count-based semantics: removal fails (returns `none`)
when removing more than present, per the specification ("fails if removing
more than present"). -/

/-- Number of copies of a card in a card list. -/
def countCard (l : List Card) (c : Card) : Nat := l.count c

/-- Add one card (`CardSet.add_card`). -/
def addCard (l : List Card) (c : Card) : List Card := l ++ [c]

/-- Add `n` copies of a card (`CardSet.add_card` with a count argument). -/
def addCopies (l : List Card) (c : Card) (n : Nat) : List Card := l ++ List.replicate n c

/-- Add a whole card set (`CardSet.add_cardset`). -/
def addList (l s : List Card) : List Card := l ++ s

/-- Remove one card; fails when the card is absent (`CardSet.remove_card`). -/
def removeCard (l : List Card) (c : Card) : Option (List Card) :=
  if c ∈ l then some (l.erase c) else none

/-- Remove a whole card set, one card at a time; fails when removing more
than present (`CardSet.remove_cardset`). -/
def removeList (l : List Card) : List Card → Option (List Card)
  | [] => some l
  | c :: cs => (removeCard l c).bind (fun l' => removeList l' cs)

/-- Multiset inclusion test: every card of `s` occurs in `l` at least as
often as in `s`. -/
def subList (s l : List Card) : Bool :=
  s.all (fun c => s.count c ≤ l.count c)

/-- `CardSet.count_suit`: number of held cards of one effective suit.
Modelled from the spec: "count of cards of an effective suit"
(`env/CardSet.py` is not under src). -/
def countSuit (l : List Card) (suit : CardSuit) (dominant_suit : TrumpSuit)
    (dominant_rank : Nat) : Nat :=
  (l.filter (fun c => get_suit c dominant_suit dominant_rank = suit)).length

/-- `CardSet.total_points`: total point value of the cards.  Modelled from
the spec: "point total (face value of point-bearing ranks in all four played
groups)"; the point-bearing ranks of Shengji are fives (5 points each) and
tens and kings (10 points each) (`env/CardSet.py` is not under src). -/
def cardPoints : Card → Int
  | .norm _ 5 => 5
  | .norm _ 10 => 10
  | .norm _ 13 => 10
  | _ => 0

/-- Total point value of a card list. -/
def totalPoints (l : List Card) : Int := (l.map cardPoints).sum

/-- All 108 card identities of the double deck, in the order of `ORDERING`
from `src/env/utils.py` (suit by suit from ace down to 2, then the jokers),
repeated twice. -/
def singleDeck : List Card :=
  ([NatSuit.diamond, NatSuit.club, NatSuit.heart, NatSuit.spade].flatMap (fun s =>
    (List.range 13).map (fun i => Card.norm s (14 - i)))) ++ [Card.xj, Card.dj]

/-- The full 108-card double deck (`CardSet.new_deck`). -/
def fullDeckList : List Card := singleDeck ++ singleDeck

example : singleDeck.length = 54 := by decide
example : fullDeckList.length = 108 := by decide

/-! ## Seats, stages, declarations -/

/-- `AbsolutePosition` from `src/env/utils.py`. -/
inductive Pos : Type
  | north
  | west
  | south
  | east
  deriving DecidableEq, Repr

/-- `RelativePosition` from `src/env/utils.py`. -/
inductive RelPos : Type
  | left
  | right
  | opposite
  | self
  deriving DecidableEq, Repr

/-- `AbsolutePosition.next_position`. -/
def Pos.next : Pos → Pos
  | .north => .west
  | .west => .south
  | .south => .east
  | .east => .north

/-- `AbsolutePosition.last_position`. -/
def Pos.last : Pos → Pos
  | .north => .east
  | .west => .north
  | .south => .west
  | .east => .south

/-- Index of a seat in the Python rotation list `['N', 'W', 'S', 'E']`. -/
def Pos.idx : Pos → Nat
  | .north => 0
  | .west => 1
  | .south => 2
  | .east => 3

/-- `AbsolutePosition.relative_to`: the relative position of `self` as seen
from `observer`, via the table `['S', 'L', 'O', 'R']` indexed by the rotation
distance. -/
def Pos.relative_to (self observer : Pos) : RelPos :=
  match (((observer.idx : Int) - (self.idx : Int)) % 4).toNat with
  | 0 => .self
  | 1 => .left
  | 2 => .opposite
  | _ => .right

/-- Iterated cyclic successor. -/
def Pos.nextPow (p : Pos) : Nat → Pos
  | 0 => p
  | n + 1 => (p.next).nextPow n

/-- A table of one value per seat (replacing Python dicts keyed by seat). -/
structure PMap (α : Type) : Type where
  north : α
  west : α
  south : α
  east : α
  deriving DecidableEq, Repr

/-- Look up a seat's entry. -/
def PMap.get (m : PMap α) : Pos → α
  | .north => m.north
  | .west => m.west
  | .south => m.south
  | .east => m.east

/-- Replace a seat's entry. -/
def PMap.set (m : PMap α) : Pos → α → PMap α
  | .north, v => { m with north := v }
  | .west, v => { m with west := v }
  | .south, v => { m with south := v }
  | .east, v => { m with east := v }

/-- Build a table with the same value at every seat. -/
def PMap.const (v : α) : PMap α := ⟨v, v, v, v⟩

/-- `Stage` from `src/env/utils.py`. -/
inductive Stage : Type
  | declare_stage
  | kitty_stage
  | chaodi_stage
  | main_stage
  deriving DecidableEq, Repr

/-- `Declaration` from `src/env/utils.py`: a trump bid (suit, level, bidder),
with the seat-relativized view filled in by `relative_to`. -/
structure Declaration : Type where
  suit : TrumpSuit
  level : Nat
  absolute_position : Pos
  relative_position : Option RelPos := none
  deriving DecidableEq, Repr

/-- `Declaration.relative_to`. -/
def Declaration.relative_to (d : Declaration) (position : Pos) : Declaration :=
  { d with relative_position := some (d.absolute_position.relative_to position) }

/-- `Declaration.chaodi_level` from `src/env/utils.py`: the separate ordering
used only for counter-bid eligibility. -/
def Declaration.chaodi_level (suit : TrumpSuit) (level : Nat) : Nat :=
  if 1 ≤ level then
    match suit with
    | .diamond => 1
    | .club => 2
    | .heart => 3
    | .spade => 4
    | .xj => 5
    | .dj => 6
  else 0

/-- `Declaration.get_card` from `src/env/utils.py`: the card(s) shown by the
declaration — the joker itself for a no-trump bid, otherwise the
dominant-rank card of the declared suit; one copy at level 0, two above. -/
def Declaration.get_card (d : Declaration) (dominant_rank : Nat) : Card × Nat :=
  let count := if d.level = 0 then 1 else 2
  match d.suit with
  | .xj => (Card.xj, count)
  | .dj => (Card.dj, count)
  | .club => (Card.norm .club dominant_rank, count)
  | .spade => (Card.norm .spade dominant_rank, count)
  | .heart => (Card.norm .heart dominant_rank, count)
  | .diamond => (Card.norm .diamond dominant_rank, count)

/-- `CardSet.trump_declaration_options`.  Modelled from the spec: "for a
hand, return every (suit, level) pair the hand could legally declare under
current draw-phase rules (based on how many trumpRank cards of that suit, or
jokers, the hand holds)" (`env/CardSet.py` is not under src).  A single
dominant-rank card of a suit declares that suit at level 0, a pair at level
1; a pair of small jokers declares at level 2 and a pair of big jokers at
level 3 (matching the engine's treatment of level 3 as the highest
counter-bid). -/
def specDeclOptions (hand : List Card) (dominant_rank : Nat) : List (TrumpSuit × Nat) :=
  let suitOpts := [(TrumpSuit.diamond, NatSuit.diamond), (TrumpSuit.club, NatSuit.club),
    (TrumpSuit.heart, NatSuit.heart), (TrumpSuit.spade, NatSuit.spade)].flatMap
    (fun (ts, ns) =>
      let n := countCard hand (Card.norm ns dominant_rank)
      (if 1 ≤ n then [(ts, 0)] else []) ++ (if 2 ≤ n then [(ts, 1)] else []))
  suitOpts
    ++ (if 2 ≤ countCard hand Card.xj then [(TrumpSuit.xj, 2)] else [])
    ++ (if 2 ≤ countCard hand Card.dj then [(TrumpSuit.dj, 3)] else [])

/-- `CardSet.get_count` as used by the declare assertion
(`self.hands[p].get_count(suit, rank)`).  Modelled from the spec: the number
of cards in the hand that would justify declaring the given suit — the
jokers themselves for a no-trump suit, otherwise the dominant-rank card of
that suit (`env/CardSet.py` is not under src). -/
def countDeclCards (hand : List Card) (suit : TrumpSuit) (rank : Nat) : Nat :=
  match suit with
  | .xj => countCard hand Card.xj
  | .dj => countCard hand Card.dj
  | .club => countCard hand (Card.norm .club rank)
  | .spade => countCard hand (Card.norm .spade rank)
  | .heart => countCard hand (Card.norm .heart rank)
  | .diamond => countCard hand (Card.norm .diamond rank)

/-! ## Actions, oracles, the game state -/

/-- The closed set of action variants from `env/Actions.py` (not under src;
the payloads are exactly what `Game.run_action` reads from each action:
`action.declaration` for the bid actions, `action.card` for a single kitty
discard, `action.cards` for a batch discard, and `action.move.cardset` /
`action.cardset` — a plain card group — for the play actions).  For
`appendLead` the engine reads the combined (extended) lead group, so the
action carries both the previous group and the combined result. -/
inductive Action : Type
  | dontDeclare
  | declare (d : Declaration)
  | placeKitty (c : Card)
  | placeAllKitty (cs : List Card)
  | dontChaodi
  | chaodi (d : Declaration)
  | lead (cs : List Card)
  | appendLead (prior combined : List Card)
  | endLead (cs : List Card)
  | follow (cs : List Card)
  deriving DecidableEq, Repr

/-- The sources of behaviour whose code is not under src, supplied per step:
`rand` models `AbsolutePosition.random()`, and `(legal, penalty)` model the
verdict of `CardSet.is_legal_combo` (spec: the check either passes, or
reduces the combo to a penalty move).  Every theorem about the engine
quantifies over the oracle. -/
structure Oracle : Type where
  legal : Bool := true
  penalty : List Card := []
  rand : Pos := .north
  deriving DecidableEq, Repr

/-- The `Game` state from `src/env/Game.py`.  The Python deck iterator
`self.deck = iter(self.card_list)` is represented by `card_list` plus the
cursor `deck_taken` (number of cards already yielded). -/
structure Game : Type where
  hands : PMap (List Card)
  public_cards : PMap (List Card)
  unplayed_cards : List Card
  card_list : List Card
  deck_taken : Nat
  kitty : List Card
  round_history : List (Pos × List (List Card))
  stage : Stage
  kitty_stage_completed : Bool
  kitty_owner : Option Pos
  dominant_rank : Nat
  declarations : List Declaration
  current_declaration_turn : Option Pos
  initial_declaration_position : Option Pos
  is_initial_game : Bool
  dealer_position : Option Pos
  opponent_points : Int
  defender_points : Int
  game_ended : Bool
  kitty_multiplier : Option Int
  points_per_round : List Int
  final_opponent_reward : Option Int
  final_defender_reward : Option Int
  enable_chaodi : Bool
  current_chaodi_turn : Option Pos
  initial_chaodi_position : Option Pos
  chaodi_times : PMap Nat
  enable_combos : Bool
  draw_order : List (Pos × Card)
  is_warmup_game : Bool
  oracle_value : ℚ
  consecutive_moves : Nat
  combo_penalty : ℚ
  combo_alternation : Bool
  deriving DecidableEq, Repr

/-- The constructor configuration of `Game.__init__`. -/
structure Config : Type where
  dominant_rank : Nat := 2
  dealer_position : Option Pos := none
  enable_chaodi : Bool := true
  enable_combos : Bool := false
  deck : Option (List Card) := none
  is_warmup_game : Bool := false
  oracle_value : ℚ := 0
  combo_penalty : ℚ := 1/10
  combo_alternation : Bool := false

/-- `Game.__init__` from `src/env/Game.py` (the warm-up tutorial deck is not
under src, so warm-up games keep the default deck ordering). -/
def newGame (cfg : Config) : Game where
  hands := PMap.const []
  public_cards := PMap.const []
  unplayed_cards := fullDeckList
  card_list := cfg.deck.getD fullDeckList
  deck_taken := 0
  kitty := []
  round_history := []
  stage := .declare_stage
  kitty_stage_completed := false
  kitty_owner := cfg.dealer_position
  dominant_rank := cfg.dominant_rank
  declarations := []
  current_declaration_turn := none
  initial_declaration_position := none
  is_initial_game := cfg.dealer_position = none
  dealer_position := cfg.dealer_position
  opponent_points := 0
  defender_points := 0
  game_ended := false
  kitty_multiplier := none
  points_per_round := []
  final_opponent_reward := none
  final_defender_reward := none
  enable_chaodi := cfg.enable_chaodi
  current_chaodi_turn := none
  initial_chaodi_position := none
  chaodi_times := PMap.const 0
  enable_combos := cfg.enable_combos
  draw_order := []
  is_warmup_game := cfg.is_warmup_game
  oracle_value := cfg.oracle_value
  consecutive_moves := 0
  combo_penalty := cfg.combo_penalty
  combo_alternation := cfg.combo_alternation

/-- `Game.dominant_suit`: the suit of the most recent declaration, defaulting
to the no-trump marker XJ. -/
def Game.dominant_suit (g : Game) : TrumpSuit :=
  (g.declarations.getLast?).elim TrumpSuit.xj (·.suit)

/-- `next(self.deck)`: take the next card off the deck iterator; fails
(`StopIteration`) when the deck is exhausted. -/
def Game.drawCard (g : Game) : Option (Card × Game) :=
  match g.card_list.drop g.deck_taken with
  | [] => none
  | c :: _ => some (c, { g with deck_taken := g.deck_taken + 1 })

/-- Total number of cards currently held across the four hands
(`sum([h.size for h in self.hands.values()])`). -/
def Game.handsTotal (g : Game) : Nat :=
  (g.hands.get .north).length + (g.hands.get .west).length
    + (g.hands.get .south).length + (g.hands.get .east).length

/-- `Game.start_game`: the first player (the dealer if fixed, else the
oracle's random seat) draws the first card. -/
def startGame (g : Game) (o : Oracle) : Option (Game × Pos) := do
  let first := g.dealer_position.getD o.rand
  let (c, g₁) ← g.drawCard
  some ({ g₁ with
    hands := g₁.hands.set first (addCard (g₁.hands.get first) c)
    draw_order := g₁.draw_order ++ [(first, c)] }, first)

/-! ## Spec-modelled play helpers

`CardSet.round_winner` and `MoveType.Combo.get_multiplier` live in
`env/CardSet.py`, which is not under src; they are modelled from the
specification's description in §4.2. -/

/-- The uniform effective suit of a card group, when it has one. -/
def groupSuit (cs : List Card) (ds : TrumpSuit) (dr : Nat) : Option CardSuit :=
  match cs with
  | [] => none
  | c :: rest =>
    let s := get_suit c ds dr
    if rest.all (fun c' => get_suit c' ds dr = s) then some s else none

/-- Whether every card of the group lies in one effective suit. -/
def sameSuitB (cs : List Card) (ds : TrumpSuit) (dr : Nat) : Bool :=
  (groupSuit cs ds dr).isSome

/-- Insert into a sorted list of naturals (structural insertion sort, so
that the profile computes by reduction). -/
def insertSorted (x : Nat) : List Nat → List Nat
  | [] => [x]
  | y :: ys => if x ≤ y then x :: y :: ys else y :: insertSorted x ys

/-- Sort a list of naturals. -/
def sortNat (l : List Nat) : List Nat := l.foldr insertSorted []

/-- The multiplicity profile of a card group (how many distinct cards occur
once, twice, ...), sorted: two groups with the same profile have the same
single/pair make-up. -/
def shapeProfile (cs : List Card) : List Nat :=
  sortNat ((cs.dedup).map (fun c => cs.count c))

/-- The highest effective rank occurring in a card group. -/
def groupRank (cs : List Card) (ds : TrumpSuit) (dr : Nat) : Nat :=
  (cs.map (fun c => get_rank c ds dr)).foldr max 0

/-- Whether the challenger group beats the incumbent group, both answering
the led group.  Modelled from the spec: "compare using: trump-suit plays
beat non-trump; among same-category plays, compare by move rank …; a played
group of mismatched shape to the lead can never win." -/
def beatsB (led incumbent chall : List Card) (ds : TrumpSuit) (dr : Nat) : Bool :=
  chall.length = led.length && shapeProfile chall = shapeProfile led &&
  match groupSuit chall ds dr, groupSuit incumbent ds dr with
  | some cs, some is =>
    (cs = .trump && is ≠ .trump)
      || (cs = is && groupRank incumbent ds dr < groupRank chall ds dr)
  | some cs, none => cs = .trump
  | _, _ => false

/-- `CardSet.round_winner`.  Modelled from the spec: the index (0..3) of the
winning group among the four played groups, the led group winning ties. -/
def specRoundWinner (moves : List (List Card)) (ds : TrumpSuit) (dr : Nat) : Nat :=
  match moves with
  | [] => 0
  | led :: rest =>
    (rest.zip (List.range' 1 rest.length)).foldl
      (fun best (g, i) =>
        if beatsB led (moves.getD best []) g ds dr then i else best) 0

/-- `MoveType.Combo.get_multiplier`.  Modelled from the spec: the spec
mentions "the last round's move-multiplier" without fixing its values; no
claim depends on the value, so the model returns the constant 2. -/
def specMoveMultiplier (_cs : List Card) (_ds : TrumpSuit) (_dr : Nat) : Int := 2

/-! ## Observations -/

/-- The `Observation` snapshot handed to a seat (`env/Observation.py`, whose
constructor simply stores the keyword arguments built in
`Game.get_observation`, lines 136–160 of `src/env/Game.py`).  The `actions`
list is omitted here: it is computed by `CardSet` code that is not under
src, and no claim concerns its contents (the legality cascade it encodes is
embedded separately as the well-formedness predicate `wfB`). -/
structure Observation : Type where
  hand : List Card
  position : Pos
  stage : Stage
  dominant_rank : Nat
  declaration : Option Declaration
  next_declaration_turn : Option RelPos
  dealer_position : Option RelPos
  defender_points : Int
  opponent_points : Int
  round_history : List (RelPos × List (List Card))
  unplayed_cards : List Card
  leads_current_trick : Bool
  chaodi_times : PMap Nat
  kitty : Option (List Card)
  is_chaodi_turn : Bool
  perceived_left : List Card
  perceived_right : List Card
  perceived_opposite : List Card
  actual_left : List Card
  actual_right : List Card
  actual_opposite : List Card
  oracle_value : ℚ
  deriving DecidableEq, Repr

/-- `Game.get_observation` (the observation fields, lines 136–160 of
`src/env/Game.py`), translated field by field. -/
def getObservation (g : Game) (position : Pos) : Observation where
  hand := g.hands.get position
  position := position
  stage := g.stage
  dominant_rank := g.dominant_rank
  declaration := (g.declarations.getLast?).map (·.relative_to position)
  next_declaration_turn := g.current_declaration_turn.map (·.relative_to position)
  dealer_position := g.dealer_position.map (·.relative_to position)
  defender_points := g.opponent_points
  opponent_points := g.opponent_points
  round_history := g.round_history.map (fun (p, cards) => (p.relative_to position, cards))
  unplayed_cards := g.unplayed_cards
  leads_current_trick :=
    match g.round_history.getLast? with
    | some (p, _) => p = position
    | none => g.dealer_position = some position
  chaodi_times := g.chaodi_times
  kitty := if g.kitty_owner = some position then some g.kitty else none
  is_chaodi_turn := g.current_chaodi_turn = some position
  perceived_left := g.public_cards.get position.last
  perceived_right := g.public_cards.get position.next
  perceived_opposite := g.public_cards.get position.next.next
  actual_left := g.hands.get position.last
  actual_right := g.hands.get position.next
  actual_opposite := g.hands.get position.next.next
  oracle_value := g.oracle_value

/-! ## The engine's transition function, `Game.run_action`

Each Python action branch becomes one helper; `runAction` dispatches on the
action exactly as the `isinstance` cascade does.  A step returns the updated
game, the next seat to act (`none` when the game just ended), and the
reward. -/

/-- Remove each card of `cs` that is present (the
`if has_card: remove_card` loop on public cards). -/
def removeIfPresentList (l : List Card) (cs : List Card) : List Card :=
  cs.foldl (fun acc c => if c ∈ acc then acc.erase c else acc) l

/-- Set the count of one card in a card list. -/
def setCount (l : List Card) (c : Card) (n : Nat) : List Card :=
  l.filter (· ≠ c) ++ List.replicate n c

/-- Raise the public count of every card of `failed` to at least its count
there (`if self.public_cards[p]._cards[card] < count: … = count`). -/
def raiseCounts (l : List Card) (failed : List Card) : List Card :=
  failed.dedup.foldl
    (fun acc c =>
      let n := failed.count c
      if acc.count c < n then setCount acc c n else acc) l

/-- The open (most recent) round of the round history
(`self.round_history[-1]`); `none` when the history is empty, in which case
the Python indexing would raise. -/
def Game.lastRound (g : Game) : Option (Pos × List (List Card)) :=
  g.round_history.getLast?

/-- Replace the most recent round of the round history. -/
def Game.setLastRound (g : Game) (r : Pos × List (List Card)) : Game :=
  { g with round_history := g.round_history.dropLast ++ [r] }

/-- Number of natural suits with at least one card left in the hand (the
`suit_count` loops of the kitty-reward computation). -/
def suitsHeld (hand : List Card) (ds : TrumpSuit) (dr : Nat) : Nat :=
  ([CardSuit.club, CardSuit.diamond, CardSuit.heart, CardSuit.spade].filter
    (fun s => 0 < countSuit hand s ds dr)).length

/-- The `DontDeclareAction` branch (lines 166–189). -/
def runDontDeclare (g : Game) (q : Pos) (o : Oracle) : Option (Game × Option Pos × ℚ) :=
  if g.current_declaration_turn = some q then
    if g.initial_declaration_position = some q.next then
      let dealer := g.dealer_position.getD o.rand
      let g := { g with
        current_declaration_turn := none
        stage := .kitty_stage
        dealer_position := some dealer }
      let g := { g with
        hands := g.hands.set dealer
          (addList (g.hands.get dealer) (g.card_list.drop g.deck_taken))
        deck_taken := g.card_list.length }
      some (g, some dealer, 0)
    else
      some ({ g with current_declaration_turn := some q.next }, some q.next, 0)
  else if g.handsTotal < 100 then
    if (g.hands.get q.next).length < 25 then do
      let (c, g₁) ← g.drawCard
      some ({ g₁ with
        hands := g₁.hands.set q.next (addCard (g₁.hands.get q.next) c)
        draw_order := g₁.draw_order ++ [(q.next, c)] }, some q.next, 0)
    else none
  else
    some ({ g with
      initial_declaration_position := some q.next
      current_declaration_turn := some q.next }, some q.next, 0)

/-- The state updates of the `DeclareAction` branch before the next card is
dealt (lines 195–200): possibly claim the dealership, record the
declaration, and reveal the declared cards. -/
def declareUpdate (g : Game) (q : Pos) (d : Declaration) : Game :=
  let g := if g.dealer_position = none ∨ g.is_initial_game then
      { g with dealer_position := some q, kitty_owner := some q }
    else g
  let card := (d.get_card g.dominant_rank).1
  let cnt := (d.get_card g.dominant_rank).2
  { g with
    declarations := g.declarations ++ [d]
    public_cards := g.public_cards.set q (addCopies (g.public_cards.get q) card cnt) }

/-- Deal the next card of the deck to the seat after `q` (lines 204–208,
also lines 181–185). -/
def dealNext (g : Game) (q : Pos) : Option (Game × Option Pos × ℚ) := do
  let (c, g₁) ← g.drawCard
  some ({ g₁ with
    hands := g₁.hands.set q.next (addCard (g₁.hands.get q.next) c)
    draw_order := g₁.draw_order ++ [(q.next, c)] }, some q.next, 0)

/-- The `DeclareAction` branch (lines 191–213). -/
def runDeclare (g : Game) (q : Pos) (d : Declaration) : Option (Game × Option Pos × ℚ) :=
  if (match g.declarations.getLast? with
      | none => true
      | some last => decide (last.level < d.level) : Bool) then
    if 1 ≤ countDeclCards (g.hands.get q) d.suit g.dominant_rank then
      let g := declareUpdate g q d
      if g.handsTotal < 100 then
        dealNext g q
      else
        some ({ g with
          initial_declaration_position := some q
          current_declaration_turn := some q.next }, some q.next, 0)
    else none
  else none

/-- The `PlaceKittyAction` branch (lines 215–261). -/
def runPlaceKitty (g : Game) (q : Pos) (c : Card) : Option (Game × Option Pos × ℚ) :=
  if g.kitty.length < 8 then do
    let ds := g.dominant_suit
    let dr := g.dominant_rank
    let suit_before := suitsHeld (g.hands.get q) ds dr
    let trump_before := countSuit (g.hands.get q) .trump ds dr
    let hand' ← removeCard (g.hands.get q) c
    let g := { g with
      kitty := addCard g.kitty c
      hands := g.hands.set q hand' }
    let suit_after := suitsHeld hand' ds dr
    let trump_after := countSuit hand' .trump ds dr
    let reward : ℚ :=
      (1/5 : ℚ) * ((suit_before : ℚ) - (suit_after : ℚ))
        - (if trump_after < trump_before then (1/2 : ℚ) else 0)
        - (if 15 ≤ get_rank c ds dr then 1 else 0)
    if g.kitty.length = 8 then
      let g := if g.round_history = [] then
          { g with round_history := [(q, [])] } else g
      if g.enable_chaodi = false then
        some ({ g with stage := .main_stage }, g.dealer_position, reward)
      else
        some ({ g with
          stage := .chaodi_stage
          initial_chaodi_position := some q
          current_chaodi_turn := some q.next }, some q.next, reward)
    else
      some (g, some q, 0)
  else none

/-- The `PlaceAllKittyAction` branch (lines 263–277). -/
def runPlaceAllKitty (g : Game) (q : Pos) (cs : List Card) :
    Option (Game × Option Pos × ℚ) := do
  let hand' ← removeList (g.hands.get q) cs
  let g := { g with
    kitty := addList g.kitty cs
    hands := g.hands.set q hand' }
  let g := if g.round_history = [] then { g with round_history := [(q, [])] } else g
  if g.enable_chaodi = false ∨ g.declarations = [] then
    some ({ g with stage := .main_stage }, g.dealer_position, 0)
  else
    some ({ g with
      stage := .chaodi_stage
      initial_chaodi_position := some q
      current_chaodi_turn := some q.next }, some q.next, 0)

/-- The `DontChaodiAction` branch (lines 279–288); reading
`current_chaodi_turn.next_position` aborts when no chaodi turn is pending. -/
def runDontChaodi (g : Game) : Option (Game × Option Pos × ℚ) := do
  let t ← g.current_chaodi_turn
  if g.initial_chaodi_position = some t.next then
    some ({ g with
      current_chaodi_turn := none
      stage := .main_stage }, g.dealer_position, 0)
  else
    some ({ g with current_chaodi_turn := some t.next }, some t.next, 0)

/-- The `ChaodiAction` branch (lines 290–303). -/
def runChaodi (g : Game) (q : Pos) (d : Declaration) : Option (Game × Option Pos × ℚ) :=
  let card := (d.get_card g.dominant_rank).1
  let cnt := (d.get_card g.dominant_rank).2
  let g := { g with
    declarations := g.declarations ++ [d]
    hands := g.hands.set q (addList (g.hands.get q) g.kitty)
    kitty := []
    public_cards := g.public_cards.set q (addCopies (g.public_cards.get q) card cnt)
    kitty_owner := some q
    stage := .kitty_stage
    chaodi_times := g.chaodi_times.set q (g.chaodi_times.get q + 1) }
  if d.level = 3 then
    some ({ g with current_chaodi_turn := none }, some q, 0)
  else
    some (g, some q, 0)

/-- The `LeadAction` branch (lines 304–308). -/
def runLead (g : Game) (q : Pos) (cs : List Card) : Option (Game × Option Pos × ℚ) := do
  let (ld, gs) ← g.lastRound
  some ({ g.setLastRound (ld, gs ++ [cs]) with consecutive_moves := 1 }, some q, 0)

/-- The `AppendLeadAction` branch (lines 309–313); writing
`round_history[-1][1][0]` aborts when no group is pending. -/
def runAppendLead (g : Game) (q : Pos) (combined : List Card) :
    Option (Game × Option Pos × ℚ) := do
  let (ld, gs) ← g.lastRound
  match gs with
  | [] => none
  | _ :: tl =>
    some ({ g.setLastRound (ld, combined :: tl) with
      consecutive_moves := g.consecutive_moves + 1 }, some q, 0)

/-- The `EndLeadAction` branch (lines 314–341); the verdict of
`CardSet.is_legal_combo` is supplied by the oracle. -/
def runEndLead (g : Game) (q : Pos) (cs : List Card) (o : Oracle) :
    Option (Game × Option Pos × ℚ) := do
  let (ld, gs) ← g.lastRound
  if o.legal then do
    let g := if gs = [] then g.setLastRound (ld, [cs]) else g
    let hand' ← removeList (g.hands.get q) cs
    let unplayed' ← removeList g.unplayed_cards cs
    some ({ g with
      hands := g.hands.set q hand'
      unplayed_cards := unplayed'
      public_cards := g.public_cards.set q
        (removeIfPresentList (g.public_cards.get q) cs) }, some q.next, 0)
  else
    match gs with
    | [] => none
    | _ :: _ => do
      let g := g.setLastRound (ld, gs.dropLast ++ [o.penalty])
      let hand' ← removeList (g.hands.get q) o.penalty
      let unplayed' ← removeList g.unplayed_cards o.penalty
      let failed ← removeList cs o.penalty
      some ({ g with
        hands := g.hands.set q hand'
        unplayed_cards := unplayed'
        public_cards := g.public_cards.set q
          (raiseCounts (g.public_cards.get q) failed) }, some q.next, -g.combo_penalty)

/-- The final-reward bucketing of lines 383–391, as a function of the
challengers' cumulative score. -/
def opponentRewardBucket (pts : Int) : Int :=
  if 80 ≤ pts then 1 + (pts - 80) / 40
  else if 40 ≤ pts then -1
  else if 0 < pts then -2
  else -3

/-- The `FollowAction` branch (lines 342–402). -/
def runFollow (g : Game) (q : Pos) (cs : List Card) : Option (Game × Option Pos × ℚ) := do
  let (ld, gs) ← g.lastRound
  let hand' ← removeList (g.hands.get q) cs
  let unplayed' ← removeList g.unplayed_cards cs
  let gs' := gs ++ [cs]
  let g := { g.setLastRound (ld, gs') with
    hands := g.hands.set q hand'
    unplayed_cards := unplayed'
    public_cards := g.public_cards.set q
      (removeIfPresentList (g.public_cards.get q) cs) }
  if gs'.length = 4 then do
    let ds := g.dominant_suit
    let dr := g.dominant_rank
    let winner := specRoundWinner gs' ds dr
    let total := (gs'.map totalPoints).sum
    let position_array := [ld, ld.next, ld.next.next, ld.last]
    let dealer ← g.dealer_position
    let dealer_index := (position_array.indexOf dealer : Nat)
    let new_leading_position := position_array.getD winner ld
    let declarer_wins := winner = dealer_index ∨ (winner + 2) % 4 = dealer_index
    let g := if declarer_wins then
        { g with
          defender_points := g.defender_points + total
          points_per_round := g.points_per_round ++ [total] }
      else
        { g with
          opponent_points := g.opponent_points + total
          points_per_round := g.points_per_round ++ [-total] }
    if hand' = [] then
      let g := { g with game_ended := true }
      let g := if ¬declarer_wins then
          let mult := specMoveMultiplier (gs'.getD winner []) ds dr
          { g with
            opponent_points := g.opponent_points + totalPoints g.kitty * mult
            points_per_round := g.points_per_round.dropLast
              ++ [(g.points_per_round.getLast?).getD 0 - totalPoints g.kitty * mult] }
        else
          { g with points_per_round := g.points_per_round.dropLast
              ++ [(g.points_per_round.getLast?).getD 0 + totalPoints g.kitty * 2] }
      let r := opponentRewardBucket g.opponent_points
      some ({ g with
        final_opponent_reward := some r
        final_defender_reward := some (-r) }, none, 0)
    else
      some ({ g with round_history := g.round_history ++ [(new_leading_position, [])] },
        some new_leading_position, 0)
  else
    some (g, some q.next, 0)

/-- `Game.run_action`: dispatch on the action variant, exactly as the
`isinstance` cascade of lines 164–404 does. -/
def runAction (g : Game) (q : Pos) (a : Action) (o : Oracle) :
    Option (Game × Option Pos × ℚ) :=
  match a with
  | .dontDeclare => runDontDeclare g q o
  | .declare d => runDeclare g q d
  | .placeKitty c => runPlaceKitty g q c
  | .placeAllKitty cs => runPlaceAllKitty g q cs
  | .dontChaodi => runDontChaodi g
  | .chaodi d => runChaodi g q d
  | .lead cs => runLead g q cs
  | .appendLead _prior combined => runAppendLead g q combined
  | .endLead cs => runEndLead g q cs o
  | .follow cs => runFollow g q cs

/-! ## Legal actions and reachability

`Game.get_observation` (lines 96–134) computes the legal-action list through
an if/elif cascade on the game state; `wfB` embeds that cascade as a
predicate "action `a` is on seat `q`'s legal-action list".  The move
enumerations themselves (`trump_declaration_options`, `get_leading_moves`,
`get_matching_moves`) live in `env/CardSet.py`, which is not under src; for
leading and following moves the predicate uses a spec-modelled superset (any
non-empty same-effective-suit sub-multiset of the hand for a lead, any
non-empty sub-multiset of matching size for a follow — the spec's singles,
pairs, tractors and same-suit combinations all satisfy this), so that every
really-legal trajectory is also a `wfB`-trajectory and invariants proved
over `wfB`-reachability cover all real plays. -/

/-- Combo-alternation bans seats East and West from leading combos
(line 116). -/
def comboBanned (g : Game) (q : Pos) : Bool :=
  g.combo_alternation && (q = .east || q = .west)

/-- Well-formedness of a leading move.  Modelled from the spec:
`CardSet.get_leading_moves` enumerates "singles, pairs, tractors, and, if
combos are enabled, arbitrary same-suit combinations" — all of them
non-empty sub-multisets of the hand lying in one effective suit
(`env/CardSet.py` is not under src). -/
def leadingWFB (g : Game) (q : Pos) (cs : List Card) : Bool :=
  !cs.isEmpty && subList cs (g.hands.get q)
    && sameSuitB cs g.dominant_suit g.dominant_rank

/-- The drawing-stage branch of the cascade is selected (line 96). -/
def branchDeclare (g : Game) : Bool := g.stage = .declare_stage

/-- The kitty-discard branch is selected (line 102): not the drawing stage,
and the seat still holds more than 25 cards. -/
def branchKitty (g : Game) (q : Pos) : Bool :=
  !branchDeclare g && 25 < (g.hands.get q).length

/-- The counter-bid branch is selected (line 105). -/
def branchChaodi (g : Game) (q : Pos) : Bool :=
  !branchDeclare g && !(25 < (g.hands.get q).length)
    && g.current_chaodi_turn = some q

/-- The play branches are selected (lines 113 and 130): none of the earlier
branches apply. -/
def branchPlay (g : Game) (q : Pos) : Bool :=
  !branchDeclare g && !(25 < (g.hands.get q).length)
    && !(g.current_chaodi_turn == some q)

/-- The legal-action cascade of `Game.get_observation` (lines 96–134),
expressed per action variant: an action is legal exactly when the cascade
branch that would emit it is the selected branch and the action satisfies
that branch's side conditions. -/
def wfB (g : Game) (q : Pos) (a : Action) : Bool :=
  match a with
  | .dontDeclare => branchDeclare g
  | .declare d =>
    branchDeclare g && !g.is_warmup_game && d.absolute_position = q
      && decide ((d.suit, d.level) ∈ specDeclOptions (g.hands.get q) g.dominant_rank)
      && (match g.declarations.getLast? with
          | none => true
          | some last =>
            decide (last.level < d.level)
              && (last.suit = d.suit || decide (last.absolute_position ≠ q)))
  | .placeKitty c => branchKitty g q && decide (0 < countCard (g.hands.get q) c)
  | .placeAllKitty _ => false
  | .dontChaodi => branchChaodi g q
  | .chaodi d =>
    branchChaodi g q && g.enable_chaodi && !g.declarations.isEmpty
      && d.absolute_position = q
      && decide ((d.suit, d.level) ∈ specDeclOptions (g.hands.get q) g.dominant_rank)
      && (match g.declarations.getLast? with
          | none => false
          | some last =>
            decide (Declaration.chaodi_level last.suit last.level
              < Declaration.chaodi_level d.suit d.level))
  | .lead cs =>
    branchPlay g q
      && (match g.lastRound with
          | some (ld, gs) =>
            ld = q && g.enable_combos && gs.isEmpty && !comboBanned g q
              && leadingWFB g q cs
          | none => false)
  | .endLead cs =>
    branchPlay g q
      && (match g.lastRound with
          | some (ld, gs) =>
            ld = q &&
            (if !g.enable_combos || gs.isEmpty then
              (!g.enable_combos || comboBanned g q) && leadingWFB g q cs
            else decide (some cs = gs.head?))
          | none => false)
  | .appendLead prior combined =>
    branchPlay g q
      && (match g.lastRound with
          | some (ld, gs) =>
            ld = q && g.enable_combos && !gs.isEmpty
              && decide (some prior = gs.head?) && decide (g.consecutive_moves < 3)
              && decide (combined.take prior.length = prior)
              && !(combined.drop prior.length).isEmpty
              && subList combined (g.hands.get q)
              && sameSuitB combined g.dominant_suit g.dominant_rank
          | none => false)
  | .follow cs =>
    branchPlay g q
      && (match g.lastRound with
          | some (ld, gs) =>
            decide (ld ≠ q) && !gs.isEmpty && !cs.isEmpty
              && subList cs (g.hands.get q)
              && decide (cs.length = (gs.headD []).length)
          | none => false)

/-- Reachable configurations of the engine: the state/actor pairs produced
by `start_game` and then any sequence of legal (`wfB`) actions successfully
applied by `run_action`, for arbitrary oracle choices. -/
inductive Reach (cfg : Config) : Game → Option Pos → Prop
  | start (o : Oracle) (g' : Game) (p : Pos) :
      startGame (newGame cfg) o = some (g', p) → Reach cfg g' (some p)
  | step {g : Game} {q : Pos} {a : Action} {o : Oracle} {g' : Game}
      {p' : Option Pos} {r : ℚ} :
      Reach cfg g (some q) → wfB g q a = true →
      runAction g q a o = some (g', p', r) → Reach cfg g' p'

/-- One legality-checked engine step. -/
def runStepChecked (g : Game) (q : Pos) (a : Action) (o : Oracle) :
    Option (Game × Option Pos × ℚ) :=
  if wfB g q a then runAction g q a o else none

/-- Drive the engine for `n` steps with a scripted policy and a fixed
oracle, stopping early only if the game ends exactly at the last step. -/
def runPolicy (pol : Game → Pos → Action) (o : Oracle) :
    Nat → Game → Pos → Option (Game × Option Pos)
  | 0, g, q => some (g, some q)
  | n + 1, g, q =>
    match runStepChecked g q (pol g q) o with
    | some (g', some q', _) => runPolicy pol o n g' q'
    | some (g', none, _) => if n = 0 then some (g', none) else none
    | none => none

/-- Policy runs only visit reachable configurations. -/
theorem reach_runPolicy {cfg : Config} {pol : Game → Pos → Action} {o : Oracle} :
    ∀ (n : Nat) {g : Game} {q : Pos} {g' : Game} {p' : Option Pos},
      Reach cfg g (some q) → runPolicy pol o n g q = some (g', p') →
      Reach cfg g' p'
  | 0, g, q, g', p', hr, h => by
    simp only [runPolicy, Option.some.injEq] at h
    obtain ⟨rfl, rfl⟩ := Prod.mk.injEq .. ▸ Prod.ext_iff.mp h
    exact hr
  | n + 1, g, q, g', p', hr, h => by
    simp only [runPolicy, runStepChecked] at h
    by_cases hwf : wfB g q (pol g q) = true
    · rw [if_pos hwf] at h
      cases hra : runAction g q (pol g q) o with
      | none => rw [hra] at h; exact absurd h (by simp)
      | some res =>
        obtain ⟨g₁, p₁, r₁⟩ := res
        rw [hra] at h
        cases p₁ with
        | none =>
          simp only at h
          split at h
          · simp only [Option.some.injEq] at h
            obtain ⟨rfl, rfl⟩ := Prod.mk.injEq .. ▸ Prod.ext_iff.mp h
            exact Reach.step hr hwf hra
          · exact absurd h (by simp)
        | some q₁ =>
          exact reach_runPolicy n (Reach.step hr hwf hra) h
    · rw [if_neg hwf] at h
      exact absurd h (by simp)

/-! ## The conservation quantity -/

/-- Number of cards in all groups of one round. -/
def roundCards (r : Pos × List (List Card)) : Nat :=
  (r.2.map List.length).sum

/-- The card-conservation quantity of claim C2: the number of cards across
the four hands, the kitty, the undealt portion of the deck, and every card
group recorded in the round history. -/
def totalCards (g : Game) : Nat :=
  g.handsTotal + g.kitty.length + (g.card_list.length - g.deck_taken)
    + (g.round_history.map roundCards).sum

/-- Whether the configuration `(g, p)` is in the middle of building a combo
lead: the seat to act is the leader of the open round and that round already
records a (pending, not yet validated) group. -/
def midLeadB (g : Game) (p : Option Pos) : Bool :=
  match p, g.lastRound with
  | some q, some (ld, gs) => q = ld && !gs.isEmpty
  | _, _ => false

/-! ## Concrete decks and scripted trajectories

The claims about reachable states are settled on concrete games driven by
scripted policies over explicitly crafted deck orderings. -/

/-- Erase the cards of `s` from `l` (total variant used to build deck
complements). -/
def removeAllList (l s : List Card) : List Card := s.foldl List.erase l

/-- The first 14 cards of the crafted deck: with dealer North, the draw
rotation gives card 1 to North and every fourth card after card 2 to West,
so West draws both copies of 2♦ (cards 2 and 6) and both copies of 2♣
(cards 10 and 14), and North's first card is a big joker. -/
def fixedPrefix : List Card :=
  [Card.dj, Card.norm .diamond 2, Card.norm .heart 3, Card.norm .heart 4,
   Card.norm .heart 5, Card.norm .diamond 2, Card.norm .heart 6, Card.norm .heart 7,
   Card.norm .heart 8, Card.norm .club 2, Card.norm .heart 9, Card.norm .heart 10,
   Card.norm .heart 11, Card.norm .club 2]

/-- A crafted full-deck ordering: the fixed prefix followed by the remaining
94 cards of the double deck. -/
def deck1 : List Card := fixedPrefix ++ removeAllList fullDeckList fixedPrefix

/-- A second deck ordering differing from `deck1` only in that the cards at
draw positions 2 and 3 (drawn by West and South respectively) are swapped. -/
def deck2 : List Card :=
  match deck1 with
  | a :: b :: c :: rest => a :: c :: b :: rest
  | l => l

/-- A scripted policy: West declares a pair of diamond 2s as soon as it
holds them, later counter-bids a pair of club 2s; everyone else passes;
kitty cards are discarded from the head of the hand; every play is the first
card of the hand (closing a pending combo lead if one exists). -/
def polDeclare (g : Game) (q : Pos) : Action :=
  if g.stage = .declare_stage then
    if q = .west ∧ g.declarations = []
        ∧ 2 ≤ countCard (g.hands.get q) (Card.norm .diamond 2) then
      .declare ⟨.diamond, 1, .west, none⟩
    else .dontDeclare
  else if 25 < (g.hands.get q).length then
    .placeKitty ((g.hands.get q).headD Card.xj)
  else if g.current_chaodi_turn = some q then
    if q = .west ∧ g.declarations.length = 1
        ∧ 2 ≤ countCard (g.hands.get q) (Card.norm .club 2) then
      .chaodi ⟨.club, 1, .west, none⟩
    else .dontChaodi
  else
    match g.lastRound with
    | some (ld, gs) =>
      if ld = q then
        if gs.isEmpty then
          if g.enable_combos && !comboBanned g q then
            .lead [(g.hands.get q).headD Card.xj]
          else
            .endLead [(g.hands.get q).headD Card.xj]
        else .endLead (gs.headD [])
      else .follow [(g.hands.get q).headD Card.xj]
    | none => .dontDeclare

/-- A scripted policy where nobody ever declares or counter-bids. -/
def polPass (g : Game) (q : Pos) : Action :=
  if g.stage = .declare_stage then .dontDeclare
  else if 25 < (g.hands.get q).length then
    .placeKitty ((g.hands.get q).headD Card.xj)
  else if g.current_chaodi_turn = some q then .dontChaodi
  else
    match g.lastRound with
    | some (ld, gs) =>
      if ld = q then
        if gs.isEmpty then
          if g.enable_combos && !comboBanned g q then
            .lead [(g.hands.get q).headD Card.xj]
          else
            .endLead [(g.hands.get q).headD Card.xj]
        else .endLead (gs.headD [])
      else .follow [(g.hands.get q).headD Card.xj]
    | none => .dontDeclare

/-- Configuration of the fully played-out game: dominant rank 2, dealer
North, counter-bidding on, combos off, the crafted deck. -/
def cfg1 : Config :=
  { dominant_rank := 2, dealer_position := some .north, enable_chaodi := true,
    enable_combos := false, deck := some deck1 }

/-- Configuration of the combo game: counter-bidding off, combos on. -/
def cfg2 : Config :=
  { dominant_rank := 2, dealer_position := some .north, enable_chaodi := false,
    enable_combos := true, deck := some deck1 }

/-- `cfg1` with the second deck ordering. -/
def cfg4 : Config := { cfg1 with deck := some deck2 }

/-! ## Concrete trajectory handles

Each handle names one state of a scripted run.  The `getD` defaults are
never hit: the runs succeed, as the `rfl` proofs of the theorems below
check by evaluation. -/

/-- The game after the dealer's first draw in the `cfg1` game. -/
def startG1 : Game × Pos := (startGame (newGame cfg1) {}).getD (newGame cfg1, .north)

/-- `n` legality-checked steps of the declaring policy into the `cfg1` game. -/
def run1 (n : Nat) : Option (Game × Option Pos) :=
  runPolicy polDeclare {} n startG1.1 startG1.2

/-- The state `run1` reaches. -/
def state1 (n : Nat) : Game × Option Pos := (run1 n).getD (startG1.1, none)

/-- The game after the dealer's first draw in the combo game `cfg2`. -/
def startG2 : Game × Pos := (startGame (newGame cfg2) {}).getD (newGame cfg2, .north)

/-- `n` steps of the declaring policy into the combo game. -/
def run2 (n : Nat) : Option (Game × Option Pos) :=
  runPolicy polDeclare {} n startG2.1 startG2.2

/-- The state `run2` reaches. -/
def state2 (n : Nat) : Game × Option Pos := (run2 n).getD (startG2.1, none)

/-- `n` steps of the pass-only policy into the `cfg1` game. -/
def runPass1 (n : Nat) : Option (Game × Option Pos) :=
  runPolicy polPass {} n startG1.1 startG1.2

/-- The state `runPass1` reaches. -/
def statePass1 (n : Nat) : Game × Option Pos := (runPass1 n).getD (startG1.1, none)

/-- The game after the dealer's first draw in the swapped-deck game `cfg4`. -/
def startG4 : Game × Pos := (startGame (newGame cfg4) {}).getD (newGame cfg4, .north)

/-- `n` steps of the pass-only policy into the swapped-deck game. -/
def runPass4 (n : Nat) : Option (Game × Option Pos) :=
  runPolicy polPass {} n startG4.1 startG4.2

/-- The state `runPass4` reaches. -/
def statePass4 (n : Nat) : Game × Option Pos := (runPass4 n).getD (startG4.1, none)

/-- Deck for the re-affirmation scenario: West and East each draw one 2♦. -/
def fixedPrefix3 : List Card :=
  [Card.dj, Card.norm .diamond 2, Card.norm .heart 3, Card.norm .diamond 2]

/-- The re-affirmation deck. -/
def deck3 : List Card := fixedPrefix3 ++ removeAllList fullDeckList fixedPrefix3

/-- The re-affirmation configuration. -/
def cfg3 : Config := { cfg1 with deck := some deck3 }

/-- Scripted policy where West opens with a single-card (level 0) diamond
declaration and everyone else passes. -/
def polSingleDecl (g : Game) (q : Pos) : Action :=
  if g.stage = Stage.declare_stage then
    if q = Pos.west ∧ g.declarations = []
        ∧ 1 ≤ countCard (g.hands.get q) (Card.norm .diamond 2) then
      Action.declare ⟨TrumpSuit.diamond, 0, Pos.west, none⟩
    else Action.dontDeclare
  else Action.dontDeclare

/-- The game after the dealer's first draw in the re-affirmation game. -/
def startG3 : Game × Pos := (startGame (newGame cfg3) {}).getD (newGame cfg3, .north)

/-- `n` steps of the single-declaration policy into the re-affirmation game. -/
def run3 (n : Nat) : Option (Game × Option Pos) :=
  runPolicy polSingleDecl {} n startG3.1 startG3.2

/-- The state `run3` reaches. -/
def state3 (n : Nat) : Game × Option Pos := (run3 n).getD (startG3.1, none)

/-- The state facing the eighth single-card kitty discard of the played-out
game, the card the policy discards there, the rest of the hand, and the
engine's answer. -/
def c5g : Game := (state1 111).1

/-- The eighth discarded card. -/
def c5card : Card := (c5g.hands.get .north).headD Card.xj

/-- The hand left after the eighth discard. -/
def c5hand : List Card := (removeCard (c5g.hands.get .north) c5card).getD []

/-- The engine's answer to the eighth discard. -/
def c5res : Game × Option Pos × ℚ := (runPlaceKitty c5g .north c5card).getD (c5g, none, 37)

/-- The state facing the final follow of the played-out game. -/
def c8g : Game := (state1 223).1

/-- The engine's answer to the final follow. -/
def c8res : Game × Option Pos × ℚ :=
  (runFollow c8g .east [Card.norm .spade 8]).getD (c8g, none, 37)

/-- The trailing-lap state: 100 cards out, nobody declared, East to act. -/
def c4g : Game := (statePass1 99).1

/-- A copy of the first `cfg1` state with different defender points. -/
def c9twin : Game := { startG1.1 with defender_points := 5 }

/-- The engine's answer to discarding the big joker as the first kitty card
(reachable state 104 of the played-out game, seat North). -/
def c5bugres : Game × Option Pos × ℚ :=
  (runAction (state1 104).1 .north (.placeKitty Card.dj) {}).getD
    ((state1 104).1, none, 37)

/-- The reachable state whose kitty already holds 8 cards (just after the
eighth discard), the head of West's hand, the rest of that hand, and the
engine's answer to placing that card into the full kitty in one batch. -/
def c10g : Game := (state1 112).1

/-- The card West would place. -/
def c10card : Card := (c10g.hands.get .west).headD Card.xj

/-- West's hand after removing that card. -/
def c10hand : List Card := (removeList (c10g.hands.get .west) [c10card]).getD []

/-- The engine's answer to the batch placement into the full kitty. -/
def c10res : Game × Option Pos × ℚ :=
  (runPlaceAllKitty c10g .west [c10card]).getD (c10g, none, 37)

/-! ## Basic lemmas about the state components -/

theorem PMap.get_set (m : PMap α) (p p' : Pos) (v : α) :
    (m.set p v).get p' = if p' = p then v else m.get p' := by
  cases p <;> cases p' <;> simp [PMap.set, PMap.get]

theorem removeCard_length {l l' : List Card} {c : Card}
    (h : removeCard l c = some l') : l'.length + 1 = l.length := by
  unfold removeCard at h
  split at h
  next hmem =>
    simp only [Option.some.injEq] at h
    subst h
    have h1 := List.length_erase_of_mem hmem
    have h2 : 0 < l.length := List.length_pos.mpr (List.ne_nil_of_mem hmem)
    omega
  next => cases h

theorem removeList_length :
    ∀ {s l l' : List Card}, removeList l s = some l' → l'.length + s.length = l.length
  | [], l, l', h => by
    simp only [removeList, Option.some.injEq] at h
    subst h; simp
  | c :: cs, l, l', h => by
    unfold removeList at h
    rcases hrc : removeCard l c with _ | l₁ <;> rw [hrc] at h
    · cases h
    · simp only [Option.some_bind] at h
      have h1 := removeList_length (s := cs) h
      have h2 := removeCard_length hrc
      simp only [List.length_cons]
      omega

theorem addCard_length (l : List Card) (c : Card) :
    (addCard l c).length = l.length + 1 := by
  simp [addCard]

theorem addList_length (l s : List Card) :
    (addList l s).length = l.length + s.length := by
  simp [addList]

theorem lastRound_decomp {g : Game} {ld : Pos} {gs : List (List Card)}
    (h : g.lastRound = some (ld, gs)) :
    g.round_history = g.round_history.dropLast ++ [(ld, gs)] := by
  unfold Game.lastRound at h
  have hne : g.round_history ≠ [] := by
    intro he; rw [he] at h; simp at h
  rw [List.getLast?_eq_getLast _ hne, Option.some.injEq] at h
  conv_lhs => rw [← List.dropLast_append_getLast hne]
  rw [h]

/-! ## The reachability invariant

The card-conservation claim is settled through an inductive invariant over
`Reach`.  Besides the conservation count itself the invariant records the
structural facts about each stage needed to push the count through every
branch of `run_action`. -/

/-- Iterated cyclic predecessor. -/
def Pos.lastPow (p : Pos) : Nat → Pos
  | 0 => p
  | n + 1 => (p.last).lastPow n

/-- Sum of the card counts in the round history. -/
def rhSum (g : Game) : Nat := (g.round_history.map roundCards).sum

/-- During the drawing phase cards are dealt strictly in rotation, so the
seat holding the most recently dealt card determines every hand size:
the seat `j` places before it in rotation holds `⌈(k − j)/4⌉` cards when
`k` cards have been dealt. -/
def countsOk (g : Game) (q : Pos) : Prop :=
  ∀ j : Nat, j < 4 → (g.hands.get (q.lastPow j)).length = (g.deck_taken - j + 3) / 4

/-- The open round (if any) has no groups yet. -/
def openGsEmpty (g : Game) : Prop :=
  ∀ ld gs, g.lastRound = some (ld, gs) → gs = []

/-- State of the open round during the play stage: either no group has been
played yet, or `k ∈ {1,2,3}` groups are in and the seat to act is the `k`-th
seat after the leader, or the leader itself is mid-combo-lead with exactly
one pending group double-counted, or the game has just ended. -/
def mainRoundOk (g : Game) (p : Option Pos) : Prop :=
  match g.lastRound with
  | some (ld, gs) =>
      (gs = [] ∧ totalCards g = 108)
    ∨ (1 ≤ gs.length ∧ gs.length ≤ 3 ∧ p = some (ld.nextPow gs.length)
        ∧ totalCards g = 108)
    ∨ (∃ m, gs = [m] ∧ p = some ld ∧ g.enable_combos = true
        ∧ totalCards g = 108 + m.length)
    ∨ (p = none ∧ totalCards g = 108)
  | none => False

/-- Turn bookkeeping of the drawing phase: before 100 cards are out, the
actor is the holder of the last dealt card and the hands follow the deal
rotation; during the trailing confirmation lap all hands hold 25 cards. -/
def declTurnOk (g : Game) (p : Option Pos) : Prop :=
  match g.current_declaration_turn with
  | none => ∃ q, p = some q ∧ 1 ≤ g.deck_taken ∧ g.deck_taken ≤ 100
      ∧ g.handsTotal = g.deck_taken ∧ countsOk g q
  | some t => p = some t ∧ g.deck_taken = 100 ∧ g.handsTotal = 100
      ∧ ∀ r, (g.hands.get r).length = 25

/-- The inductive invariant of reachable configurations. -/
structure Inv (g : Game) (p : Option Pos) : Prop where
  deckLen : g.card_list.length = 108
  deckTaken : g.deck_taken ≤ g.card_list.length
  nonMain : g.stage ≠ .main_stage → totalCards g = 108 ∧ openGsEmpty g
  declareInv : g.stage = .declare_stage → g.current_chaodi_turn = none ∧ g.kitty = []
      ∧ g.round_history = [] ∧ declTurnOk g p
  kittyInv : g.stage = .kitty_stage → ∃ w, p = some w
      ∧ (g.hands.get w).length + g.kitty.length = 33
      ∧ (∀ r, r ≠ w → (g.hands.get r).length = 25) ∧ g.kitty.length ≤ 7
      ∧ (g.current_chaodi_turn = none ∨ g.current_chaodi_turn = some w)
  chaodiInv : g.stage = .chaodi_stage → (∀ r, (g.hands.get r).length = 25)
      ∧ g.kitty.length = 8 ∧ g.round_history ≠ []
      ∧ (∃ t, g.current_chaodi_turn = some t ∧ p = some t)
  mainInv : g.stage = .main_stage → g.kitty.length = 8 ∧ g.round_history ≠ []
      ∧ g.current_chaodi_turn = none ∧ mainRoundOk g p
  chaodiOff : g.enable_chaodi = false → g.current_chaodi_turn = none

theorem Pos.nextPow_ne_self (q : Pos) {k : Nat} (h1 : 1 ≤ k) (h3 : k ≤ 3) :
    q.nextPow k ≠ q := by
  interval_cases k <;> cases q <;> decide

theorem Pos.lastPow_enum (q r : Pos) : ∃ j, j < 4 ∧ q.lastPow j = r := by
  cases q <;> cases r
  all_goals first
    | exact ⟨0, by omega, by decide⟩
    | exact ⟨1, by omega, by decide⟩
    | exact ⟨2, by omega, by decide⟩
    | exact ⟨3, by omega, by decide⟩

theorem setLastRound_lastRound (g : Game) (r : Pos × List (List Card)) :
    (g.setLastRound r).lastRound = some r := by
  simp [Game.setLastRound, Game.lastRound]

theorem rhSum_setLastRound {g : Game} {ld : Pos} {gs : List (List Card)}
    (h : g.lastRound = some (ld, gs)) (r : Pos × List (List Card)) :
    rhSum (g.setLastRound r) + roundCards (ld, gs) = rhSum g + roundCards r := by
  unfold rhSum
  conv_rhs => rw [lastRound_decomp h]
  simp [Game.setLastRound]
  omega

theorem totalCards_eq (g : Game) :
    totalCards g = g.handsTotal + g.kitty.length
      + (g.card_list.length - g.deck_taken) + rhSum g := rfl

theorem lastRound_of_ne_nil {g : Game} (h : g.round_history ≠ []) :
    ∃ ld gs, g.lastRound = some (ld, gs) := by
  unfold Game.lastRound
  rw [List.getLast?_eq_getLast _ h]
  exact ⟨(g.round_history.getLast h).1, (g.round_history.getLast h).2, rfl⟩

/-- Batch-placement actions are never on a legal-action list: no branch of
`get_observation` produces a `PlaceAllKittyAction`. -/
theorem wfB_placeAllKitty_false (g : Game) (q : Pos) (cs : List Card) :
    wfB g q (.placeAllKitty cs) = false := rfl

theorem branchChaodi_elim {g : Game} {q : Pos} (h : branchChaodi g q = true) :
    g.stage ≠ .declare_stage ∧ (g.hands.get q).length ≤ 25
      ∧ g.current_chaodi_turn = some q := by
  unfold branchChaodi branchDeclare at h
  simp only [Bool.and_eq_true, Bool.not_eq_true', decide_eq_false_iff_not,
    decide_eq_true_eq, Bool.not_eq_eq_eq_not, Bool.not_true] at h
  exact ⟨h.1.1, by omega, h.2⟩

theorem branchPlay_elim {g : Game} {q : Pos} (h : branchPlay g q = true) :
    g.stage ≠ .declare_stage ∧ (g.hands.get q).length ≤ 25
      ∧ g.current_chaodi_turn ≠ some q := by
  unfold branchPlay branchDeclare at h
  simp only [Bool.and_eq_true, Bool.not_eq_true', decide_eq_false_iff_not,
    beq_eq_false_iff_ne, ne_eq] at h
  exact ⟨h.1.1, by omega, h.2⟩

theorem handsTotal_game_set {g g' : Game} {q : Pos} {h' : List Card}
    (hq : g'.hands = g.hands.set q h') :
    g'.handsTotal + (g.hands.get q).length = g.handsTotal + h'.length := by
  cases q <;> simp [Game.handsTotal, hq, PMap.set, PMap.get] <;> omega

theorem totalCards_congr {g1 g2 : Game} (hh : g1.hands = g2.hands)
    (hk : g1.kitty = g2.kitty) (hc : g1.card_list = g2.card_list)
    (hd : g1.deck_taken = g2.deck_taken)
    (hr : g1.round_history = g2.round_history) :
    totalCards g1 = totalCards g2 := by
  rw [totalCards_eq, totalCards_eq, hk, hc, hd]
  unfold Game.handsTotal rhSum
  rw [hh, hr]

theorem totalCards_setLastRound {g : Game} {ld : Pos} {gs : List (List Card)}
    (h : g.lastRound = some (ld, gs)) (r : Pos × List (List Card)) :
    totalCards (g.setLastRound r) + roundCards (ld, gs)
      = totalCards g + roundCards r := by
  rw [totalCards_eq, totalCards_eq]
  have h1 : (g.setLastRound r).handsTotal = g.handsTotal := rfl
  have h2 : (g.setLastRound r).kitty = g.kitty := rfl
  have h3 : (g.setLastRound r).card_list = g.card_list := rfl
  have h4 : (g.setLastRound r).deck_taken = g.deck_taken := rfl
  have h5 := rhSum_setLastRound h r
  rw [h1, h2, h3, h4]
  omega

/-- When the counter-bid branch of the cascade is selected at a reachable
configuration, the stage is the chaodi stage. -/
theorem stage_chaodi_of_branch {g : Game} {q : Pos} (hI : Inv g (some q))
    (hs : g.stage ≠ .declare_stage) (hh : (g.hands.get q).length ≤ 25)
    (ht : g.current_chaodi_turn = some q) : g.stage = .chaodi_stage := by
  cases hst : g.stage with
  | declare_stage => exact absurd hst hs
  | kitty_stage =>
    obtain ⟨w, hpw, hsum, _, hk7, _⟩ := hI.kittyInv hst
    obtain rfl : q = w := by injection hpw
    omega
  | chaodi_stage => rfl
  | main_stage =>
    have hnone := (hI.mainInv hst).2.2.1
    rw [hnone] at ht; cases ht

/-- Passing on a counter-bid preserves the invariant. -/
theorem inv_dontChaodi {g : Game} {q : Pos} {o : Oracle} {g' : Game}
    {p' : Option Pos} {r : ℚ} (hI : Inv g (some q))
    (hwf : wfB g q .dontChaodi = true)
    (hrun : runAction g q .dontChaodi o = some (g', p', r)) : Inv g' p' := by
  obtain ⟨hs, hh, ht⟩ := branchChaodi_elim (by simpa [wfB] using hwf)
  have hstage : g.stage = .chaodi_stage := stage_chaodi_of_branch hI hs hh ht
  obtain ⟨hhand25, hk8, hrh, t, htt, hpt⟩ := hI.chaodiInv hstage
  have hT := hI.nonMain (by rw [hstage]; intro hc; cases hc)
  unfold runAction runDontChaodi at hrun
  rw [ht] at hrun
  simp only [Option.bind_eq_bind, Option.some_bind] at hrun
  split at hrun
  case isTrue hini =>
    simp only [Option.some.injEq, Prod.mk.injEq] at hrun
    obtain ⟨rfl, rfl, rfl⟩ := hrun
    obtain ⟨ld, gs, hlr⟩ := lastRound_of_ne_nil hrh
    have hgs : gs = [] := hT.2 ld gs hlr
    refine ⟨hI.deckLen, hI.deckTaken, ?_, ?_, ?_, ?_, ?_, ?_⟩
    · intro hmain; exact absurd rfl hmain
    · intro hdecl; cases hdecl
    · intro hkit; cases hkit
    · intro hcha; cases hcha
    · intro _
      refine ⟨hk8, hrh, rfl, ?_⟩
      unfold mainRoundOk
      have hlr2 : Game.lastRound
          { g with current_chaodi_turn := none, stage := Stage.main_stage }
          = some (ld, gs) := hlr
      rw [hlr2]
      exact Or.inl ⟨hgs, hT.1⟩
    · intro _; rfl
  case isFalse hini =>
    simp only [Option.some.injEq, Prod.mk.injEq] at hrun
    obtain ⟨rfl, rfl, rfl⟩ := hrun
    refine ⟨hI.deckLen, hI.deckTaken, ?_, ?_, ?_, ?_, ?_, ?_⟩
    · intro _; exact hT
    · intro hdecl; exact absurd (hstage.symm.trans hdecl) (by decide)
    · intro hkit; exact absurd (hstage.symm.trans hkit) (by decide)
    · intro _
      exact ⟨hhand25, hk8, hrh, q.next, rfl, rfl⟩
    · intro hmain; exact absurd (hstage.symm.trans hmain) (by decide)
    · intro hoff
      have := hI.chaodiOff hoff
      rw [this] at ht; cases ht

/-- An accepted counter-bid preserves the invariant. -/
theorem inv_chaodi {g : Game} {q : Pos} {d : Declaration} {o : Oracle} {g' : Game}
    {p' : Option Pos} {r : ℚ} (hI : Inv g (some q))
    (hwf : wfB g q (.chaodi d) = true)
    (hrun : runAction g q (.chaodi d) o = some (g', p', r)) : Inv g' p' := by
  have hwf' : branchChaodi g q = true ∧ g.enable_chaodi = true := by
    have h := hwf
    unfold wfB at h
    simp only [Bool.and_eq_true] at h
    exact ⟨h.1.1.1.1.1, h.1.1.1.1.2⟩
  obtain ⟨hs, hh, ht⟩ := branchChaodi_elim hwf'.1
  have hstage : g.stage = .chaodi_stage := stage_chaodi_of_branch hI hs hh ht
  obtain ⟨hhand25, hk8, hrh, t, htt, hpt⟩ := hI.chaodiInv hstage
  have hT := hI.nonMain (by rw [hstage]; intro hc; cases hc)
  simp only [runAction] at hrun
  unfold runChaodi at hrun
  have hkey : ∀ (gg : Game), gg.hands = g.hands.set q (addList (g.hands.get q) g.kitty) →
      gg.kitty = [] → gg.card_list = g.card_list → gg.deck_taken = g.deck_taken →
      gg.round_history = g.round_history → gg.stage = .kitty_stage →
      gg.enable_chaodi = g.enable_chaodi →
      (gg.current_chaodi_turn = g.current_chaodi_turn ∨ gg.current_chaodi_turn = none) →
      ∀ pp, pp = some q → Inv gg pp := by
    intro gg hhands hkit hcl hdt hrhist hstg hec hturn pp hpp
    have hTgg : totalCards gg = totalCards g := by
      have h1 := @handsTotal_game_set g gg _ _ hhands
      rw [addList_length] at h1
      rw [totalCards_eq, totalCards_eq, hkit, hcl, hdt]
      unfold rhSum
      rw [hrhist]
      simp only [List.length_nil]
      omega
    refine ⟨hcl ▸ hI.deckLen, by rw [hcl, hdt]; exact hI.deckTaken, ?_, ?_, ?_, ?_, ?_, ?_⟩
    · intro _
      constructor
      · rw [hTgg]; exact hT.1
      · intro ld gs hlr
        exact hT.2 ld gs (by rw [Game.lastRound, ← hrhist]; exact hlr)
    · intro hdecl; rw [hstg] at hdecl; cases hdecl
    · intro _
      refine ⟨q, hpp, ?_, ?_, ?_, ?_⟩
      · rw [hhands, PMap.get_set, if_pos rfl, addList_length, hkit]
        simp only [List.length_nil, Nat.add_zero]
        rw [hhand25 q, hk8]
      · intro rr hrr
        rw [hhands, PMap.get_set, if_neg hrr]
        exact hhand25 rr
      · rw [hkit]; simp
      · rcases hturn with he | he
        · rw [he, ht]; right; congr 1
        · left; exact he
    · intro hcha; rw [hstg] at hcha; cases hcha
    · intro hmain; rw [hstg] at hmain; cases hmain
    · intro hoff
      rw [hec] at hoff
      rw [hwf'.2] at hoff; cases hoff
  by_cases hl : d.level = 3
  · rw [if_pos hl] at hrun
    simp only [Option.some.injEq, Prod.mk.injEq] at hrun
    obtain ⟨rfl, rfl, rfl⟩ := hrun
    apply hkey <;> first | rfl | exact Or.inr rfl
  · rw [if_neg hl] at hrun
    simp only [Option.some.injEq, Prod.mk.injEq] at hrun
    obtain ⟨rfl, rfl, rfl⟩ := hrun
    apply hkey <;> first | rfl | exact Or.inl rfl

/-- When the play branch of the cascade is selected at a reachable
configuration, the stage is the play stage. -/
theorem stage_main_of_branch {g : Game} {q : Pos} (hI : Inv g (some q))
    (hs : g.stage ≠ .declare_stage) (hh : (g.hands.get q).length ≤ 25)
    (ht : g.current_chaodi_turn ≠ some q) : g.stage = .main_stage := by
  cases hst : g.stage with
  | declare_stage => exact absurd hst hs
  | kitty_stage =>
    obtain ⟨w, hpw, hsum, _, hk7, _⟩ := hI.kittyInv hst
    obtain rfl : q = w := by injection hpw
    omega
  | chaodi_stage =>
    obtain ⟨_, _, _, t, htt, hpt⟩ := hI.chaodiInv hst
    obtain rfl : q = t := by injection hpt
    exact absurd htt ht
  | main_stage => rfl

/-- Batch kitty placement never occurs along legal trajectories. -/
theorem inv_placeAllKitty {g : Game} {q : Pos} {cs : List Card} {o : Oracle}
    {g' : Game} {p' : Option Pos} {r : ℚ} (hI : Inv g (some q))
    (hwf : wfB g q (.placeAllKitty cs) = true)
    (hrun : runAction g q (.placeAllKitty cs) o = some (g', p', r)) : Inv g' p' := by
  rw [wfB_placeAllKitty_false] at hwf
  cases hwf

/-- Opening a combo lead preserves the invariant: the pending group is
recorded in the open round while remaining in the leader's hand. -/
theorem inv_lead {g : Game} {q : Pos} {cs : List Card} {o : Oracle}
    {g' : Game} {p' : Option Pos} {r : ℚ} (hI : Inv g (some q))
    (hwf : wfB g q (.lead cs) = true)
    (hrun : runAction g q (.lead cs) o = some (g', p', r)) : Inv g' p' := by
  unfold wfB at hwf
  simp only [Bool.and_eq_true] at hwf
  obtain ⟨hbp, hm⟩ := hwf
  obtain ⟨hs, hh, ht⟩ := branchPlay_elim hbp
  have hstage := stage_main_of_branch hI hs hh ht
  rcases hlr : g.lastRound with _ | ⟨ld, gs⟩ <;> rw [hlr] at hm
  · simp at hm
  simp only [Bool.and_eq_true, decide_eq_true_eq, List.isEmpty_eq_true] at hm
  obtain ⟨⟨⟨⟨hld, hcombos⟩, hgs⟩, _⟩, _⟩ := hm
  subst hgs
  obtain ⟨hk8, hrh, hturn, hmro⟩ := hI.mainInv hstage
  have hT : totalCards g = 108 := by
    unfold mainRoundOk at hmro
    rw [hlr] at hmro
    rcases hmro with ⟨_, h⟩ | ⟨h1, _, _, h⟩ | ⟨m, hm', _, _, _⟩ | ⟨hp, _⟩
    · exact h
    · exact h
    · cases hm'
    · cases hp
  simp only [runAction] at hrun
  unfold runLead at hrun
  rw [hlr] at hrun
  simp only [Option.bind_eq_bind, Option.some_bind, Option.some.injEq,
    Prod.mk.injEq] at hrun
  obtain ⟨rfl, rfl, rfl⟩ := hrun
  have hT' : totalCards { g.setLastRound (ld, [] ++ [cs]) with consecutive_moves := 1 }
      = 108 + cs.length := by
    have e1 : totalCards { g.setLastRound (ld, [] ++ [cs]) with consecutive_moves := 1 }
        = totalCards (g.setLastRound (ld, [] ++ [cs])) :=
      totalCards_congr rfl rfl rfl rfl rfl
    have e2 := totalCards_setLastRound hlr (ld, [] ++ [cs])
    have e3 : roundCards (ld, ([] : List (List Card))) = 0 := rfl
    have e4 : roundCards (ld, [] ++ [cs]) = cs.length := by simp [roundCards]
    omega
  refine ⟨hI.deckLen, hI.deckTaken, ?_, ?_, ?_, ?_, ?_, ?_⟩
  · intro hnm; exact absurd hstage hnm
  · intro hd; exact absurd (hstage.symm.trans hd) (by decide)
  · intro hk; exact absurd (hstage.symm.trans hk) (by decide)
  · intro hc; exact absurd (hstage.symm.trans hc) (by decide)
  · intro _
    refine ⟨hk8, ?_, hturn, ?_⟩
    · simp [Game.setLastRound]
    · unfold mainRoundOk
      rw [show ∀ gg : Game, gg = { g.setLastRound (ld, [] ++ [cs]) with
          consecutive_moves := 1 } → gg.lastRound = some (ld, [] ++ [cs]) from
          fun gg hgg => hgg ▸ setLastRound_lastRound g (ld, [] ++ [cs])]
      · refine Or.inr (Or.inr (Or.inl ⟨cs, rfl, ?_, hcombos, ?_⟩))
        · rw [hld]
        · simpa using hT'
      · rfl
  · exact hI.chaodiOff

/-- The only state of an open main-stage round in which the leader itself is
the seat to act with groups already recorded is the mid-combo-lead state. -/
theorem midMode_of_leader {g : Game} {q : Pos} {ld : Pos} {gs : List (List Card)}
    (hlr : g.lastRound = some (ld, gs)) (hld : ld = q) (hgsne : gs ≠ [])
    (hmro : mainRoundOk g (some q)) :
    ∃ m, gs = [m] ∧ g.enable_combos = true ∧ totalCards g = 108 + m.length := by
  unfold mainRoundOk at hmro
  rw [hlr] at hmro
  rcases hmro with ⟨hgs, _⟩ | ⟨h1, h3, hp, _⟩ | ⟨m, hm', hp, hc, hTm⟩ | ⟨hp, _⟩
  · exact absurd hgs hgsne
  · exfalso
    have hq : ld.nextPow gs.length = q := by injection hp.symm
    rw [hld] at hq
    exact Pos.nextPow_ne_self q h1 h3 hq
  · exact ⟨m, hm', hc, hTm⟩
  · cases hp

/-- Extending a pending combo lead preserves the invariant. -/
theorem inv_appendLead {g : Game} {q : Pos} {prior combined : List Card} {o : Oracle}
    {g' : Game} {p' : Option Pos} {r : ℚ} (hI : Inv g (some q))
    (hwf : wfB g q (.appendLead prior combined) = true)
    (hrun : runAction g q (.appendLead prior combined) o = some (g', p', r)) :
    Inv g' p' := by
  unfold wfB at hwf
  simp only [Bool.and_eq_true] at hwf
  obtain ⟨hbp, hm⟩ := hwf
  obtain ⟨hs, hh, ht⟩ := branchPlay_elim hbp
  have hstage := stage_main_of_branch hI hs hh ht
  rcases hlr : g.lastRound with _ | ⟨ld, gs⟩ <;> rw [hlr] at hm
  · simp at hm
  simp only [Bool.and_eq_true, decide_eq_true_eq] at hm
  obtain ⟨⟨⟨⟨⟨⟨⟨⟨hld, hcombos⟩, hgsne⟩, hprior⟩, hcons⟩, htake⟩, hdrop⟩, hsub⟩,
    hsuit⟩ := hm
  have hgsne' : gs ≠ [] := by
    cases gs
    · simp at hgsne
    · simp
  obtain ⟨hk8, hrh, hturn, hmro⟩ := hI.mainInv hstage
  obtain ⟨m, hgs, hcombos', hT⟩ := midMode_of_leader hlr hld hgsne' hmro
  subst hgs
  simp only [runAction] at hrun
  unfold runAppendLead at hrun
  rw [hlr] at hrun
  simp only [Option.bind_eq_bind, Option.some_bind, Option.some.injEq,
    Prod.mk.injEq] at hrun
  obtain ⟨rfl, rfl, rfl⟩ := hrun
  have hT' : totalCards { g.setLastRound (ld, [combined]) with
      consecutive_moves := g.consecutive_moves + 1 } = 108 + combined.length := by
    have e1 : totalCards { g.setLastRound (ld, [combined]) with
        consecutive_moves := g.consecutive_moves + 1 }
        = totalCards (g.setLastRound (ld, [combined])) :=
      totalCards_congr rfl rfl rfl rfl rfl
    have e2 := totalCards_setLastRound hlr (ld, [combined])
    have e3 : roundCards (ld, [m]) = m.length := by simp [roundCards]
    have e4 : roundCards (ld, [combined]) = combined.length := by simp [roundCards]
    omega
  refine ⟨hI.deckLen, hI.deckTaken, ?_, ?_, ?_, ?_, ?_, ?_⟩
  · intro hnm; exact absurd hstage hnm
  · intro hd; exact absurd (hstage.symm.trans hd) (by decide)
  · intro hk; exact absurd (hstage.symm.trans hk) (by decide)
  · intro hc; exact absurd (hstage.symm.trans hc) (by decide)
  · intro _
    refine ⟨hk8, ?_, hturn, ?_⟩
    · simp [Game.setLastRound]
    · unfold mainRoundOk
      have hlr2 : Game.lastRound { g.setLastRound (ld, [combined]) with
          consecutive_moves := g.consecutive_moves + 1 } = some (ld, [combined]) :=
        setLastRound_lastRound g (ld, [combined])
      rw [hlr2]
      refine Or.inr (Or.inr (Or.inl ⟨combined, rfl, ?_, hcombos, hT'⟩))
      rw [hld]
  · exact hI.chaodiOff

/-- Discarding one kitty card preserves the invariant. -/
theorem inv_placeKitty {g : Game} {q : Pos} {c : Card} {o : Oracle}
    {g' : Game} {p' : Option Pos} {r : ℚ} (hI : Inv g (some q))
    (hwf : wfB g q (.placeKitty c) = true)
    (hrun : runAction g q (.placeKitty c) o = some (g', p', r)) : Inv g' p' := by
  unfold wfB branchKitty branchDeclare at hwf
  simp only [Bool.and_eq_true, Bool.not_eq_true', decide_eq_false_iff_not,
    decide_eq_true_eq] at hwf
  obtain ⟨⟨hs, hh26⟩, hcnt⟩ := hwf
  simp only [runAction] at hrun
  unfold runPlaceKitty at hrun
  cases hst : g.stage with
  | declare_stage => exact absurd hst hs
  | chaodi_stage =>
    have h25 := (hI.chaodiInv hst).1 q
    omega
  | main_stage =>
    have hk8 := (hI.mainInv hst).1
    rw [if_neg (by omega)] at hrun
    cases hrun
  | kitty_stage =>
    obtain ⟨w, hpw, hsum, hoth, hk7, hturn⟩ := hI.kittyInv hst
    obtain rfl : q = w := by injection hpw
    have hT := hI.nonMain (by rw [hst]; intro hmm; cases hmm)
    rw [if_pos (by omega)] at hrun
    rcases hrc : removeCard (g.hands.get q) c with _ | hand' <;> rw [hrc] at hrun
    · cases hrun
    simp only [Option.bind_eq_bind, Option.some_bind] at hrun
    have hlen := removeCard_length hrc
    have hT1 : ∀ gg : Game, gg.hands = g.hands.set q hand' →
        gg.kitty = addCard g.kitty c → gg.card_list = g.card_list →
        gg.deck_taken = g.deck_taken → rhSum gg = rhSum g →
        totalCards gg = totalCards g := by
      intro gg h1 h2 h3 h4 h5
      have e1 := @handsTotal_game_set g gg _ _ h1
      rw [totalCards_eq, totalCards_eq, h2, h3, h4, addCard_length, h5]
      omega
    split at hrun
    case isTrue h8 =>
      have h8' : (addCard g.kitty c).length = 8 := h8
      have hkit7 : g.kitty.length = 7 := by
        rw [addCard_length] at h8'; omega
      have hq26 : (g.hands.get q).length = 26 := by omega
      split at hrun
      case isTrue hrh0 =>
        have hrh0' : g.round_history = [] := hrh0
        split at hrun
        case isTrue hoff =>
          have hoff' : g.enable_chaodi = false := hoff
          simp only [Option.some.injEq, Prod.mk.injEq] at hrun
          obtain ⟨rfl, rfl, rfl⟩ := hrun
          refine ⟨hI.deckLen, hI.deckTaken, ?_, ?_, ?_, ?_, ?_, ?_⟩
          · intro hnm; exact absurd rfl hnm
          · intro hd; cases hd
          · intro hk; cases hk
          · intro hc2; cases hc2
          · intro _
            refine ⟨h8', by simp, hI.chaodiOff hoff', ?_⟩
            unfold mainRoundOk Game.lastRound
            simp only [List.getLast?_singleton]
            refine Or.inl ⟨by trivial, ?_⟩
            refine Eq.trans (hT1 _ rfl rfl rfl rfl ?_) hT.1
            simp [rhSum, hrh0', roundCards]
          · intro _; exact hI.chaodiOff hoff'
        case isFalse hoff =>
          have hoff' : ¬(g.enable_chaodi = false) := hoff
          simp only [Option.some.injEq, Prod.mk.injEq] at hrun
          obtain ⟨rfl, rfl, rfl⟩ := hrun
          refine ⟨hI.deckLen, hI.deckTaken, ?_, ?_, ?_, ?_, ?_, ?_⟩
          · intro _
            constructor
            · refine Eq.trans (hT1 _ rfl rfl rfl rfl ?_) hT.1
              simp [rhSum, hrh0', roundCards]
            · intro ld gs hlr
              have : (some ((q, []) : Pos × List (List Card)) : Option _)
                  = some (ld, gs) := by
                rw [← hlr]
                exact (List.getLast?_singleton _).symm
              injection this with hthis
              exact congrArg Prod.snd hthis |>.symm
          · intro hd; cases hd
          · intro hk; cases hk
          · intro _
            refine ⟨?_, h8', by simp, q.next, rfl, rfl⟩
            intro rr
            rw [PMap.get_set]
            split
            next hrq => subst hrq; omega
            next hrq => exact hoth rr hrq
          · intro hmm; cases hmm
          · intro hoff2; exact absurd hoff2 hoff'
      case isFalse hrh0 =>
        have hrh0' : ¬(g.round_history = []) := hrh0
        obtain ⟨ld0, gs0, hlr0⟩ := lastRound_of_ne_nil hrh0'
        have hgs0 : gs0 = [] := hT.2 ld0 gs0 hlr0
        split at hrun
        case isTrue hoff =>
          have hoff' : g.enable_chaodi = false := hoff
          simp only [Option.some.injEq, Prod.mk.injEq] at hrun
          obtain ⟨rfl, rfl, rfl⟩ := hrun
          refine ⟨hI.deckLen, hI.deckTaken, ?_, ?_, ?_, ?_, ?_, ?_⟩
          · intro hnm; exact absurd rfl hnm
          · intro hd; cases hd
          · intro hk; cases hk
          · intro hc2; cases hc2
          · intro _
            refine ⟨h8', hrh0', hI.chaodiOff hoff', ?_⟩
            unfold mainRoundOk
            have hlr2 : Game.lastRound
                { g with
                  hands := g.hands.set q hand'
                  kitty := addCard g.kitty c
                  stage := Stage.main_stage }
                = some (ld0, gs0) := hlr0
            rw [hlr2]
            refine Or.inl ⟨hgs0, ?_⟩
            exact Eq.trans (hT1 _ rfl rfl rfl rfl rfl) hT.1
          · intro _; exact hI.chaodiOff hoff'
        case isFalse hoff =>
          have hoff' : ¬(g.enable_chaodi = false) := hoff
          simp only [Option.some.injEq, Prod.mk.injEq] at hrun
          obtain ⟨rfl, rfl, rfl⟩ := hrun
          refine ⟨hI.deckLen, hI.deckTaken, ?_, ?_, ?_, ?_, ?_, ?_⟩
          · intro _
            constructor
            · exact Eq.trans (hT1 _ rfl rfl rfl rfl rfl) hT.1
            · intro ld gs hlr
              have : (some ((ld0, gs0) : Pos × List (List Card)) : Option _)
                  = some (ld, gs) := by rw [← hlr]; exact hlr0.symm
              injection this with hthis
              have h2 : gs0 = gs := congrArg Prod.snd hthis
              exact h2 ▸ hgs0
          · intro hd; cases hd
          · intro hk; cases hk
          · intro _
            refine ⟨?_, h8', hrh0', q.next, rfl, rfl⟩
            intro rr
            rw [PMap.get_set]
            split
            next hrq => subst hrq; omega
            next hrq => exact hoth rr hrq
          · intro hmm; cases hmm
          · intro hoff2; exact absurd hoff2 hoff'
    case isFalse h8 =>
      simp only [Option.some.injEq, Prod.mk.injEq] at hrun
      obtain ⟨rfl, rfl, rfl⟩ := hrun
      have hk7' : (addCard g.kitty c).length ≤ 7 := by
        have h8'' : ¬((addCard g.kitty c).length = 8) := h8
        rw [addCard_length] at h8'' ⊢
        omega
      refine ⟨hI.deckLen, hI.deckTaken, ?_, ?_, ?_, ?_, ?_, ?_⟩
      · intro _
        constructor
        · exact Eq.trans (hT1 _ rfl rfl rfl rfl rfl) hT.1
        · intro ld gs hlr
          exact hT.2 ld gs hlr
      · intro hd; exact absurd (hst.symm.trans hd) (by decide)
      · intro _
        refine ⟨q, rfl, ?_, ?_, hk7', hturn⟩
        · rw [PMap.get_set, if_pos rfl, addCard_length]
          omega
        · intro rr hrr
          rw [PMap.get_set, if_neg hrr]
          exact hoth rr hrr
      · intro hc2; exact absurd (hst.symm.trans hc2) (by decide)
      · intro hmm; exact absurd (hst.symm.trans hmm) (by decide)
      · exact hI.chaodiOff

theorem Pos.nextPow_succ_right (p : Pos) (k : Nat) :
    p.nextPow (k + 1) = (p.nextPow k).next := by
  induction k generalizing p with
  | zero => rfl
  | succ n ih =>
    show (p.next).nextPow (n + 1) = _
    rw [ih p.next]
    rfl

/-- After dealing one card to `q.next`, the rotation bookkeeping holds with
`q.next` as the seat of the most recently dealt card. -/
theorem countsOk_deal {g g' : Game} {q : Pos} {c : Card}
    (hc : countsOk g q) (hk1 : 1 ≤ g.deck_taken)
    (hhands : g'.hands = g.hands.set q.next (addCard (g.hands.get q.next) c))
    (hdt : g'.deck_taken = g.deck_taken + 1) :
    countsOk g' q.next := by
  have hc0 := hc 0 (by omega)
  have hc1 := hc 1 (by omega)
  have hc2 := hc 2 (by omega)
  have hc3 := hc 3 (by omega)
  intro j hj
  interval_cases j <;> cases q <;>
    simp only [Pos.lastPow, Pos.last, Pos.next, PMap.get, PMap.set, hhands, hdt,
      addCard_length] at hc0 hc1 hc2 hc3 ⊢ <;>
    omega

theorem countsOk_all25 {g : Game} {q : Pos} (hc : countsOk g q)
    (h100 : g.deck_taken = 100) : ∀ r : Pos, (g.hands.get r).length = 25 := by
  intro r
  obtain ⟨j, hj, hqr⟩ := Pos.lastPow_enum q r
  have := hc j hj
  rw [hqr, h100] at this
  interval_cases j <;> omega

/-- Decomposition of a successful deck draw. -/
theorem drawCard_eqs {g : Game} {c : Card} {g1 : Game}
    (h : g.drawCard = some (c, g1)) :
    g1.hands = g.hands ∧ g1.deck_taken = g.deck_taken + 1
      ∧ g1.card_list = g.card_list ∧ g1.kitty = g.kitty
      ∧ g1.round_history = g.round_history ∧ g1.stage = g.stage
      ∧ g1.current_chaodi_turn = g.current_chaodi_turn
      ∧ g1.current_declaration_turn = g.current_declaration_turn
      ∧ g1.enable_chaodi = g.enable_chaodi
      ∧ g.deck_taken < g.card_list.length := by
  unfold Game.drawCard at h
  split at h
  next hdrop => cases h
  next c' rest hdrop =>
    simp only [Option.some.injEq, Prod.mk.injEq] at h
    obtain ⟨rfl, hg1⟩ := h
    refine ⟨by rw [← hg1], by rw [← hg1], by rw [← hg1], by rw [← hg1],
      by rw [← hg1], by rw [← hg1], by rw [← hg1], by rw [← hg1],
      by rw [← hg1], ?_⟩
    by_contra hge
    rw [List.drop_eq_nil_of_le (by omega)] at hdrop
    cases hdrop

/-- Passing during the drawing phase preserves the invariant. -/
theorem inv_dontDeclare {g : Game} {q : Pos} {o : Oracle} {g' : Game}
    {p' : Option Pos} {r : ℚ} (hI : Inv g (some q))
    (hwf : wfB g q .dontDeclare = true)
    (hrun : runAction g q .dontDeclare o = some (g', p', r)) : Inv g' p' := by
  have hstage : g.stage = .declare_stage := by
    unfold wfB branchDeclare at hwf
    exact of_decide_eq_true hwf
  obtain ⟨hct, hkit, hrh, hdt⟩ := hI.declareInv hstage
  have hT := hI.nonMain (by rw [hstage]; intro hmm; cases hmm)
  have hrs0 : rhSum g = 0 := by
    unfold rhSum
    rw [hrh]
    rfl
  simp only [runAction] at hrun
  unfold runDontDeclare at hrun
  split at hrun
  case isTrue hturn =>
    unfold declTurnOk at hdt
    rw [hturn] at hdt
    obtain ⟨hpq, h100, htot, h25⟩ := hdt
    split at hrun
    case isTrue hini =>
      simp only [Option.some.injEq, Prod.mk.injEq] at hrun
      obtain ⟨hg', hp', hr'⟩ := hrun
      subst hp'; subst hr'
      have Hh : g'.hands = g.hands.set (g.dealer_position.getD o.rand)
          (addList (g.hands.get (g.dealer_position.getD o.rand))
            (g.card_list.drop g.deck_taken)) := by rw [← hg']
      have Hk : g'.kitty = g.kitty := by rw [← hg']
      have Hc : g'.card_list = g.card_list := by rw [← hg']
      have Hd : g'.deck_taken = g.card_list.length := by rw [← hg']
      have Hr : g'.round_history = g.round_history := by rw [← hg']
      have Hs : g'.stage = .kitty_stage := by rw [← hg']
      have Hct : g'.current_chaodi_turn = g.current_chaodi_turn := by rw [← hg']
      have hdrop : (g.card_list.drop g.deck_taken).length = 8 := by
        rw [List.length_drop, hI.deckLen, h100]
      refine ⟨Hc ▸ hI.deckLen, by rw [Hd, Hc], ?_, ?_, ?_, ?_, ?_, ?_⟩
      · intro _
        constructor
        · rw [totalCards_eq]
          have e1 := handsTotal_game_set Hh
          rw [addList_length, hdrop] at e1
          have e3 : rhSum g' = rhSum g := by unfold rhSum; rw [Hr]
          rw [Hk, Hc, Hd, e3, hkit, hrs0]
          simp only [List.length_nil, Nat.sub_self]
          omega
        · intro ld gs hlr
          unfold Game.lastRound at hlr
          rw [Hr, hrh] at hlr
          cases hlr
      · intro hdd; rw [Hs] at hdd; cases hdd
      · intro _
        refine ⟨g.dealer_position.getD o.rand, rfl, ?_, ?_, ?_, ?_⟩
        · rw [Hh, PMap.get_set, if_pos rfl, addList_length, hdrop, h25, Hk, hkit]
          rfl
        · intro rr hrr
          rw [Hh, PMap.get_set, if_neg hrr]
          exact h25 rr
        · rw [Hk, hkit]; simp
        · rw [Hct]; exact Or.inl hct
      · intro hcc; rw [Hs] at hcc; cases hcc
      · intro hmm; rw [Hs] at hmm; cases hmm
      · intro _; rw [Hct]; exact hct
    case isFalse hini =>
      simp only [Option.some.injEq, Prod.mk.injEq] at hrun
      obtain ⟨hg', hp', hr'⟩ := hrun
      subst hp'; subst hr'
      have Hs : g'.stage = g.stage := by rw [← hg']
      have Hct : g'.current_chaodi_turn = g.current_chaodi_turn := by rw [← hg']
      have Ht' : g'.current_declaration_turn = some q.next := by rw [← hg']
      have HT : totalCards g' = totalCards g := by
        refine totalCards_congr ?_ ?_ ?_ ?_ ?_ <;> rw [← hg']
      refine ⟨by rw [show g'.card_list = g.card_list by rw [← hg']]; exact hI.deckLen,
        ?_, ?_, ?_, ?_, ?_, ?_, ?_⟩
      · rw [show g'.card_list = g.card_list by rw [← hg'],
          show g'.deck_taken = g.deck_taken by rw [← hg']]
        exact hI.deckTaken
      · intro _
        constructor
        · rw [HT]; exact hT.1
        · intro ld gs hlr
          unfold Game.lastRound at hlr
          rw [show g'.round_history = g.round_history by rw [← hg'], hrh] at hlr
          cases hlr
      · intro _
        refine ⟨by rw [Hct]; exact hct,
          by rw [show g'.kitty = g.kitty by rw [← hg']]; exact hkit,
          by rw [show g'.round_history = g.round_history by rw [← hg']]; exact hrh, ?_⟩
        unfold declTurnOk
        rw [Ht']
        refine ⟨rfl, by rw [show g'.deck_taken = g.deck_taken by rw [← hg']]; exact h100,
          ?_, ?_⟩
        · have : g'.handsTotal = g.handsTotal := by
            unfold Game.handsTotal
            rw [show g'.hands = g.hands by rw [← hg']]
          rw [this]; exact htot
        · intro rr
          rw [show g'.hands = g.hands by rw [← hg']]
          exact h25 rr
      · intro hkk
        rw [Hs] at hkk
        exact absurd (hstage.symm.trans hkk) (by decide)
      · intro hcc
        rw [Hs] at hcc
        exact absurd (hstage.symm.trans hcc) (by decide)
      · intro hmm
        rw [Hs] at hmm
        exact absurd (hstage.symm.trans hmm) (by decide)
      · intro _; rw [Hct]; exact hct
  case isFalse hturn =>
    have hturnN : g.current_declaration_turn = none := by
      unfold declTurnOk at hdt
      rcases hc : g.current_declaration_turn with _ | t
      · rfl
      · rw [hc] at hdt
        obtain ⟨hpq, _⟩ := hdt
        injection hpq with hqt
        exact absurd (hc.trans (by rw [hqt])) hturn
    unfold declTurnOk at hdt
    rw [hturnN] at hdt
    obtain ⟨q0, hq0, hk1, hk100, htot, hcounts⟩ := hdt
    obtain rfl : q = q0 := by injection hq0
    split at hrun
    case isTrue hlt =>
      split at hrun
      case isTrue hn25 =>
        rcases hdc : g.drawCard with _ | ⟨c, g1⟩ <;> rw [hdc] at hrun
        · cases hrun
        obtain ⟨D1, D2, D3, D4, D5, D6, D7, D8, D9, D10⟩ := drawCard_eqs hdc
        simp only [Option.bind_eq_bind, Option.some_bind, Option.some.injEq,
          Prod.mk.injEq] at hrun
        obtain ⟨hg', hp', hr'⟩ := hrun
        subst hp'; subst hr'
        have Hh : g'.hands = g1.hands.set q.next (addCard (g1.hands.get q.next) c) := by
          rw [← hg']
        have Hk : g'.kitty = g1.kitty := by rw [← hg']
        have Hc : g'.card_list = g1.card_list := by rw [← hg']
        have Hd : g'.deck_taken = g1.deck_taken := by rw [← hg']
        have Hr : g'.round_history = g1.round_history := by rw [← hg']
        have Hs : g'.stage = g1.stage := by rw [← hg']
        have Hct : g'.current_chaodi_turn = g1.current_chaodi_turn := by rw [← hg']
        have Ht' : g'.current_declaration_turn = g1.current_declaration_turn := by
          rw [← hg']
        have e1 := handsTotal_game_set (D1 ▸ Hh)
        rw [addCard_length] at e1
        have e2 : g1.handsTotal = g.handsTotal := by
          unfold Game.handsTotal
          rw [D1]
        refine ⟨by rw [Hc, D3]; exact hI.deckLen, by rw [Hd, D2, Hc, D3]; omega,
          ?_, ?_, ?_, ?_, ?_, ?_⟩
        · intro _
          constructor
          · rw [totalCards_eq]
            have e3 : rhSum g' = rhSum g := by unfold rhSum; rw [Hr, D5]
            rw [Hk, D4, Hc, D3, Hd, D2, e3, hkit, hrs0]
            rw [totalCards_eq, hkit, hrs0] at hT
            have hTT := hT.1
            simp only [List.length_nil] at hTT ⊢
            omega
          · intro ld gs hlr
            unfold Game.lastRound at hlr
            rw [Hr, D5, hrh] at hlr
            cases hlr
        · intro _
          refine ⟨by rw [Hct, D7]; exact hct, by rw [Hk, D4]; exact hkit,
            by rw [Hr, D5]; exact hrh, ?_⟩
          unfold declTurnOk
          rw [Ht', D8, hturnN]
          refine ⟨q.next, rfl, by rw [Hd, D2]; omega, by rw [Hd, D2]; omega, ?_, ?_⟩
          · rw [Hd, D2]
            omega
          · exact countsOk_deal (g := g) hcounts hk1
              (by rw [Hh, D1]) (by rw [Hd, D2])
        · intro hkk
          rw [Hs, D6] at hkk
          exact absurd (hstage.symm.trans hkk) (by decide)
        · intro hcc
          rw [Hs, D6] at hcc
          exact absurd (hstage.symm.trans hcc) (by decide)
        · intro hmm
          rw [Hs, D6] at hmm
          exact absurd (hstage.symm.trans hmm) (by decide)
        · intro _
          rw [Hct, D7]
          exact hct
      case isFalse => cases hrun
    case isFalse hge =>
      simp only [Option.some.injEq, Prod.mk.injEq] at hrun
      obtain ⟨hg', hp', hr'⟩ := hrun
      subst hp'; subst hr'
      have h100 : g.deck_taken = 100 := by omega
      have Hs : g'.stage = g.stage := by rw [← hg']
      have Hct : g'.current_chaodi_turn = g.current_chaodi_turn := by rw [← hg']
      have Ht' : g'.current_declaration_turn = some q.next := by rw [← hg']
      have HT : totalCards g' = totalCards g := by
        refine totalCards_congr ?_ ?_ ?_ ?_ ?_ <;> rw [← hg']
      refine ⟨by rw [show g'.card_list = g.card_list by rw [← hg']]; exact hI.deckLen,
        ?_, ?_, ?_, ?_, ?_, ?_, ?_⟩
      · rw [show g'.card_list = g.card_list by rw [← hg'],
          show g'.deck_taken = g.deck_taken by rw [← hg']]
        exact hI.deckTaken
      · intro _
        constructor
        · rw [HT]; exact hT.1
        · intro ld gs hlr
          unfold Game.lastRound at hlr
          rw [show g'.round_history = g.round_history by rw [← hg'], hrh] at hlr
          cases hlr
      · intro _
        refine ⟨by rw [Hct]; exact hct,
          by rw [show g'.kitty = g.kitty by rw [← hg']]; exact hkit,
          by rw [show g'.round_history = g.round_history by rw [← hg']]; exact hrh, ?_⟩
        unfold declTurnOk
        rw [Ht']
        refine ⟨rfl, by rw [show g'.deck_taken = g.deck_taken by rw [← hg']]; exact h100,
          ?_, ?_⟩
        · have : g'.handsTotal = g.handsTotal := by
            unfold Game.handsTotal
            rw [show g'.hands = g.hands by rw [← hg']]
          rw [this, htot, h100]
        · intro rr
          rw [show g'.hands = g.hands by rw [← hg']]
          exact countsOk_all25 hcounts h100 rr
      · intro hkk
        rw [Hs] at hkk
        exact absurd (hstage.symm.trans hkk) (by decide)
      · intro hcc
        rw [Hs] at hcc
        exact absurd (hstage.symm.trans hcc) (by decide)
      · intro hmm
        rw [Hs] at hmm
        exact absurd (hstage.symm.trans hmm) (by decide)
      · intro _; rw [Hct]; exact hct


/-- The state updates of `declareUpdate` change no card locations. -/
theorem declareUpdate_eqs (g : Game) (q : Pos) (d : Declaration) :
    (declareUpdate g q d).hands = g.hands
      ∧ (declareUpdate g q d).kitty = g.kitty
      ∧ (declareUpdate g q d).card_list = g.card_list
      ∧ (declareUpdate g q d).deck_taken = g.deck_taken
      ∧ (declareUpdate g q d).round_history = g.round_history
      ∧ (declareUpdate g q d).stage = g.stage
      ∧ (declareUpdate g q d).current_chaodi_turn = g.current_chaodi_turn
      ∧ (declareUpdate g q d).current_declaration_turn = g.current_declaration_turn
      ∧ (declareUpdate g q d).enable_chaodi = g.enable_chaodi
      ∧ (declareUpdate g q d).initial_declaration_position
          = g.initial_declaration_position := by
  unfold declareUpdate
  split <;> exact ⟨rfl, rfl, rfl, rfl, rfl, rfl, rfl, rfl, rfl, rfl⟩

/-- Decomposition of a successful deal-to-next-seat step. -/
theorem dealNext_eqs {g : Game} {q : Pos} {g' : Game} {p' : Option Pos} {r : ℚ}
    (h : dealNext g q = some (g', p', r)) :
    p' = some q.next ∧ r = 0
      ∧ (∃ c, g'.hands = g.hands.set q.next (addCard (g.hands.get q.next) c))
      ∧ g'.deck_taken = g.deck_taken + 1
      ∧ g'.card_list = g.card_list ∧ g'.kitty = g.kitty
      ∧ g'.round_history = g.round_history ∧ g'.stage = g.stage
      ∧ g'.current_chaodi_turn = g.current_chaodi_turn
      ∧ g'.current_declaration_turn = g.current_declaration_turn
      ∧ g'.enable_chaodi = g.enable_chaodi
      ∧ g.deck_taken < g.card_list.length := by
  unfold dealNext at h
  rcases hdc : g.drawCard with _ | ⟨c, g1⟩ <;> rw [hdc] at h
  · cases h
  obtain ⟨D1, D2, D3, D4, D5, D6, D7, D8, D9, D10⟩ := drawCard_eqs hdc
  simp only [Option.bind_eq_bind, Option.some_bind, Option.some.injEq,
    Prod.mk.injEq] at h
  obtain ⟨hg', hp', hr'⟩ := h
  refine ⟨hp'.symm, hr'.symm, ⟨c, ?_⟩, ?_, ?_, ?_, ?_, ?_, ?_, ?_, ?_, D10⟩
  · rw [← hg', D1]
  · rw [← hg', D2]
  · rw [← hg', D3]
  · rw [← hg', D4]
  · rw [← hg', D5]
  · rw [← hg', D6]
  · rw [← hg', D7]
  · rw [← hg', D8]
  · rw [← hg', D9]

/-- A declaration during the drawing phase preserves the invariant. -/
theorem inv_declare {g : Game} {q : Pos} {d : Declaration} {o : Oracle} {g' : Game}
    {p' : Option Pos} {r : ℚ} (hI : Inv g (some q))
    (hwf : wfB g q (.declare d) = true)
    (hrun : runAction g q (.declare d) o = some (g', p', r)) : Inv g' p' := by
  have hstage : g.stage = .declare_stage := by
    unfold wfB at hwf
    simp only [Bool.and_eq_true] at hwf
    have := hwf.1.1.1.1
    unfold branchDeclare at this
    exact of_decide_eq_true this
  obtain ⟨hct, hkit, hrh, hdt⟩ := hI.declareInv hstage
  have hT := hI.nonMain (by rw [hstage]; intro hmm; cases hmm)
  have hrs0 : rhSum g = 0 := by
    unfold rhSum
    rw [hrh]
    rfl
  simp only [runAction] at hrun
  unfold runDeclare at hrun
  split at hrun
  case isFalse => cases hrun
  case isTrue hlvl =>
    split at hrun
    case isFalse => cases hrun
    case isTrue hqual =>
      obtain ⟨E1, E2, E3, E4, E5, E6, E7, E8, E9, E10⟩ := declareUpdate_eqs g q d
      have Etot : (declareUpdate g q d).handsTotal = g.handsTotal := by
        unfold Game.handsTotal
        rw [E1]
      simp only [] at hrun
      split at hrun
      case isTrue hlt =>
        have hlt' : g.handsTotal < 100 := by rw [Etot] at hlt; exact hlt
        -- during the lap the hands already total 100, so the drawing branch
        -- implies the lap has not begun
        have hturnN : g.current_declaration_turn = none := by
          unfold declTurnOk at hdt
          rcases hc : g.current_declaration_turn with _ | t
          · rfl
          · rw [hc] at hdt
            obtain ⟨_, _, htot, _⟩ := hdt
            omega
        unfold declTurnOk at hdt
        rw [hturnN] at hdt
        obtain ⟨q0, hq0, hk1, hk100, htot, hcounts⟩ := hdt
        obtain rfl : q = q0 := by injection hq0
        obtain ⟨hp', hr', ⟨c, F1⟩, F2, F3, F4, F5, F6, F7, F8, F9, F10⟩ :=
          dealNext_eqs hrun
        subst hp'; subst hr'
        have F1' : g'.hands = g.hands.set q.next (addCard (g.hands.get q.next) c) := by
          rw [F1, E1]
        have e1 := handsTotal_game_set F1'
        rw [addCard_length] at e1
        refine ⟨by rw [F3, E3]; exact hI.deckLen,
          by rw [F2, E4, F3, E3]; rw [E3, E4] at F10; omega, ?_, ?_, ?_, ?_, ?_, ?_⟩
        · intro _
          constructor
          · rw [totalCards_eq]
            have e3 : rhSum g' = rhSum g := by unfold rhSum; rw [F5, E5]
            rw [F4, E2, F2, E4, F3, E3, e3, hkit, hrs0]
            rw [totalCards_eq, hkit, hrs0] at hT
            have hTT := hT.1
            simp only [List.length_nil] at hTT ⊢
            omega
          · intro ld gs hlr
            unfold Game.lastRound at hlr
            rw [F5, E5, hrh] at hlr
            cases hlr
        · intro _
          refine ⟨by rw [F7, E7]; exact hct, by rw [F4, E2]; exact hkit,
            by rw [F5, E5]; exact hrh, ?_⟩
          unfold declTurnOk
          rw [F8, E8, hturnN]
          refine ⟨q.next, rfl, by rw [F2, E4]; omega, by rw [F2, E4]; omega, ?_, ?_⟩
          · rw [F2, E4]
            omega
          · exact countsOk_deal (g := g) hcounts hk1 F1' (by rw [F2, E4])
        · intro hkk
          rw [F6, E6] at hkk
          exact absurd (hstage.symm.trans hkk) (by decide)
        · intro hcc
          rw [F6, E6] at hcc
          exact absurd (hstage.symm.trans hcc) (by decide)
        · intro hmm
          rw [F6, E6] at hmm
          exact absurd (hstage.symm.trans hmm) (by decide)
        · intro _
          rw [F7, E7]
          exact hct
      case isFalse hge =>
        have hge' : ¬(g.handsTotal < 100) := by rw [Etot] at hge; exact hge
        have h100' : g.handsTotal = 100 ∧ g.deck_taken = 100 := by
          unfold declTurnOk at hdt
          rcases hc : g.current_declaration_turn with _ | t <;> rw [hc] at hdt
          · obtain ⟨q0, hq0, hk1, hk100, htot, hcounts⟩ := hdt
            omega
          · obtain ⟨_, hdk, htot, _⟩ := hdt
            exact ⟨htot, hdk⟩
        have hall25 : ∀ rr : Pos, (g.hands.get rr).length = 25 := by
          unfold declTurnOk at hdt
          rcases hc : g.current_declaration_turn with _ | t <;> rw [hc] at hdt
          · obtain ⟨q0, hq0, hk1, hk100, htot, hcounts⟩ := hdt
            obtain rfl : q = q0 := by injection hq0
            exact countsOk_all25 hcounts (by omega)
          · exact hdt.2.2.2
        simp only [Option.some.injEq, Prod.mk.injEq] at hrun
        obtain ⟨hg', hp', hr'⟩ := hrun
        subst hp'; subst hr'
        have Hs : g'.stage = g.stage := by rw [← hg']; exact E6
        have Hct : g'.current_chaodi_turn = g.current_chaodi_turn := by
          rw [← hg']; exact E7
        have Ht' : g'.current_declaration_turn = some q.next := by rw [← hg']
        have Hh : g'.hands = g.hands := by rw [← hg']; exact E1
        have Hk : g'.kitty = g.kitty := by rw [← hg']; exact E2
        have Hc : g'.card_list = g.card_list := by rw [← hg']; exact E3
        have Hd : g'.deck_taken = g.deck_taken := by rw [← hg']; exact E4
        have Hr : g'.round_history = g.round_history := by rw [← hg']; exact E5
        refine ⟨by rw [Hc]; exact hI.deckLen, by rw [Hd, Hc]; exact hI.deckTaken,
          ?_, ?_, ?_, ?_, ?_, ?_⟩
        · intro _
          constructor
          · rw [totalCards_congr Hh Hk Hc Hd Hr]
            exact hT.1
          · intro ld gs hlr
            unfold Game.lastRound at hlr
            rw [Hr, hrh] at hlr
            cases hlr
        · intro _
          refine ⟨by rw [Hct]; exact hct, by rw [Hk]; exact hkit,
            by rw [Hr]; exact hrh, ?_⟩
          unfold declTurnOk
          rw [Ht']
          refine ⟨rfl, by rw [Hd]; exact h100'.2, ?_, ?_⟩
          · have : g'.handsTotal = g.handsTotal := by
              unfold Game.handsTotal
              rw [Hh]
            rw [this]
            exact h100'.1
          · intro rr
            rw [Hh]
            exact hall25 rr
        · intro hkk
          rw [Hs] at hkk
          exact absurd (hstage.symm.trans hkk) (by decide)
        · intro hcc
          rw [Hs] at hcc
          exact absurd (hstage.symm.trans hcc) (by decide)
        · intro hmm
          rw [Hs] at hmm
          exact absurd (hstage.symm.trans hmm) (by decide)
        · intro _
          rw [Hct]
          exact hct

/-- Closing a lead preserves the invariant: from a base state whose open
round holds exactly the group `mnew` and whose conservation count exceeds
108 by `mnew`, removing `mnew` cards from the acting hand restores 108. -/
theorem inv_endLead_key {g : Game} {q : Pos} (hI : Inv g (some q)) {ld : Pos}
    (hld : ld = q) :
    ∀ (base : Game) (mnew hand' : List Card),
      base.lastRound = some (ld, [mnew]) → base.round_history ≠ [] →
      base.kitty.length = 8 → base.card_list.length = 108 →
      base.deck_taken ≤ base.card_list.length →
      base.stage = .main_stage → base.current_chaodi_turn = none →
      totalCards base = 108 + mnew.length →
      (base.hands.get q).length = hand'.length + mnew.length →
      ∀ gg : Game, gg.hands = base.hands.set q hand' →
        gg.kitty = base.kitty → gg.card_list = base.card_list →
        gg.deck_taken = base.deck_taken → gg.round_history = base.round_history →
        gg.stage = base.stage → gg.current_chaodi_turn = base.current_chaodi_turn →
        Inv gg (some q.next) := by
  intro base mnew hand' hblr hbrh hbk8 hbcl hbdt hbs hbct hbT hbhand
    gg G1 G4 G5 G6 G7 G8 G9
  have e1 := handsTotal_game_set G1
  have hTgg : totalCards gg = 108 := by
    rw [totalCards_eq]
    have e3 : rhSum gg = rhSum base := by unfold rhSum; rw [G7]
    rw [G4, G5, G6, e3]
    rw [totalCards_eq] at hbT
    omega
  refine ⟨by rw [G5]; exact hbcl, by rw [G6, G5]; exact hbdt, ?_, ?_, ?_, ?_, ?_, ?_⟩
  · intro hnm
    rw [G8] at hnm
    exact absurd hbs hnm
  · intro hd2; rw [G8, hbs] at hd2; cases hd2
  · intro hk2; rw [G8, hbs] at hk2; cases hk2
  · intro hc2; rw [G8, hbs] at hc2; cases hc2
  · intro _
    refine ⟨by rw [G4]; exact hbk8, by rw [G7]; exact hbrh,
      by rw [G9]; exact hbct, ?_⟩
    unfold mainRoundOk Game.lastRound
    rw [G7]
    have hbase : base.round_history.getLast? = some (ld, [mnew]) := hblr
    rw [hbase]
    refine Or.inr (Or.inl ⟨by simp, by simp, ?_, hTgg⟩)
    rw [hld]
    rfl
  · intro _
    rw [G9]
    exact hbct

/-- Closing a lead (with either verdict of the legality oracle) preserves
the invariant. -/
theorem inv_endLead {g : Game} {q : Pos} {cs : List Card} {o : Oracle}
    {g' : Game} {p' : Option Pos} {r : ℚ} (hI : Inv g (some q))
    (hwf : wfB g q (.endLead cs) = true)
    (hrun : runAction g q (.endLead cs) o = some (g', p', r)) : Inv g' p' := by
  unfold wfB at hwf
  simp only [Bool.and_eq_true] at hwf
  obtain ⟨hbp, hm⟩ := hwf
  obtain ⟨hs, hh, ht⟩ := branchPlay_elim hbp
  have hstage := stage_main_of_branch hI hs hh ht
  obtain ⟨hk8, hrh, hturn, hmro⟩ := hI.mainInv hstage
  rcases hlr : g.lastRound with _ | ⟨ld, gs⟩ <;> rw [hlr] at hm
  · simp at hm
  simp only [Bool.and_eq_true, decide_eq_true_eq] at hm
  obtain ⟨hld, hcond⟩ := hm
  simp only [runAction] at hrun
  unfold runEndLead at hrun
  rw [hlr] at hrun
  simp only [Option.bind_eq_bind, Option.some_bind] at hrun
  split at hrun
  case isTrue hleg =>
    split at hrun
    case isTrue hgs =>
      subst hgs
      have hT : totalCards g = 108 := by
        unfold mainRoundOk at hmro
        rw [hlr] at hmro
        rcases hmro with ⟨_, h⟩ | ⟨h1, _, _, _⟩ | ⟨m, hm2, _, _, _⟩ | ⟨hp, _⟩
        · exact h
        · simp at h1
        · cases hm2
        · cases hp
      rcases hrm : removeList ((g.setLastRound (ld, [cs])).hands.get q) cs
        with _ | hand' <;> rw [hrm] at hrun
      · cases hrun
      simp only [Option.some_bind] at hrun
      rcases hru : removeList (g.setLastRound (ld, [cs])).unplayed_cards cs
        with _ | unp' <;> rw [hru] at hrun
      · cases hrun
      simp only [Option.some_bind, Option.some.injEq, Prod.mk.injEq] at hrun
      obtain ⟨hg', hp', hr'⟩ := hrun
      subst hp'; subst hr'
      have hrml := removeList_length hrm
      refine inv_endLead_key hI hld (g.setLastRound (ld, [cs])) cs hand'
        (setLastRound_lastRound g (ld, [cs])) (by simp [Game.setLastRound])
        hk8 hI.deckLen hI.deckTaken hstage hturn ?_ ?_ g' ?_ ?_ ?_ ?_ ?_ ?_ ?_
      · have e2 := totalCards_setLastRound hlr (ld, [cs])
        have e3 : roundCards (ld, ([] : List (List Card))) = 0 := rfl
        have e4 : roundCards (ld, [cs]) = cs.length := by simp [roundCards]
        omega
      · exact hrml.symm
      · rw [← hg']
      · rw [← hg']
      · rw [← hg']
      · rw [← hg']
      · rw [← hg']
      · rw [← hg']
      · rw [← hg']
    case isFalse hgs =>
      obtain ⟨m, hgsm, hcombos, hT⟩ := midMode_of_leader hlr hld hgs hmro
      subst hgsm
      have hcs : cs = m := by
        rw [hcombos] at hcond
        simp at hcond
        exact hcond
      subst hcs
      rcases hrm : removeList (g.hands.get q) cs with _ | hand' <;> rw [hrm] at hrun
      · cases hrun
      simp only [Option.some_bind] at hrun
      rcases hru : removeList g.unplayed_cards cs with _ | unp' <;> rw [hru] at hrun
      · cases hrun
      simp only [Option.some_bind, Option.some.injEq, Prod.mk.injEq] at hrun
      obtain ⟨hg', hp', hr'⟩ := hrun
      subst hp'; subst hr'
      have hrml := removeList_length hrm
      refine inv_endLead_key hI hld g cs hand' hlr hrh hk8 hI.deckLen hI.deckTaken
        hstage hturn hT (by omega) g' ?_ ?_ ?_ ?_ ?_ ?_ ?_
      · rw [← hg']
      · rw [← hg']
      · rw [← hg']
      · rw [← hg']
      · rw [← hg']
      · rw [← hg']
      · rw [← hg']
  case isFalse hleg =>
    rcases gs with _ | ⟨m0, tl⟩
    · cases hrun
    · have hne : (m0 :: tl) ≠ [] := by simp
      obtain ⟨m, hgsm, hcombos, hT⟩ := midMode_of_leader hlr hld hne hmro
      obtain ⟨rfl, rfl⟩ : m0 = m ∧ tl = [] := by
        injection hgsm with h1 h2
        exact ⟨h1, h2⟩
      simp only [List.dropLast_single, List.nil_append] at hrun
      rcases hrm : removeList ((g.setLastRound (ld, [o.penalty])).hands.get q)
        o.penalty with _ | hand' <;> rw [hrm] at hrun
      · cases hrun
      simp only [Option.some_bind] at hrun
      rcases hru : removeList (g.setLastRound (ld, [o.penalty])).unplayed_cards
        o.penalty with _ | unp' <;> rw [hru] at hrun
      · cases hrun
      simp only [Option.some_bind] at hrun
      rcases hrf : removeList cs o.penalty with _ | failed <;> rw [hrf] at hrun
      · cases hrun
      simp only [Option.some_bind, Option.some.injEq, Prod.mk.injEq] at hrun
      obtain ⟨hg', hp', hr'⟩ := hrun
      subst hp'; subst hr'
      have hrml := removeList_length hrm
      refine inv_endLead_key hI hld (g.setLastRound (ld, [o.penalty])) o.penalty
        hand' (setLastRound_lastRound g (ld, [o.penalty]))
        (by simp [Game.setLastRound]) hk8 hI.deckLen hI.deckTaken hstage hturn
        ?_ ?_ g' ?_ ?_ ?_ ?_ ?_ ?_ ?_
      · have e2 := totalCards_setLastRound hlr (ld, [o.penalty])
        have e3 : roundCards (ld, [m0]) = m0.length := by simp [roundCards]
        have e4 : roundCards (ld, [o.penalty]) = o.penalty.length := by
          simp [roundCards]
        omega
      · exact hrml.symm
      · rw [← hg']
      · rw [← hg']
      · rw [← hg']
      · rw [← hg']
      · rw [← hg']
      · rw [← hg']
      · rw [← hg']

set_option maxHeartbeats 2000000 in
/-- Following in an open round preserves the invariant. -/
theorem inv_follow {g : Game} {q : Pos} {cs : List Card} {o : Oracle}
    {g' : Game} {p' : Option Pos} {r : ℚ} (hI : Inv g (some q))
    (hwf : wfB g q (.follow cs) = true)
    (hrun : runAction g q (.follow cs) o = some (g', p', r)) : Inv g' p' := by
  unfold wfB at hwf
  simp only [Bool.and_eq_true] at hwf
  obtain ⟨hbp, hm⟩ := hwf
  obtain ⟨hs, hh, ht⟩ := branchPlay_elim hbp
  have hstage := stage_main_of_branch hI hs hh ht
  obtain ⟨hk8, hrh, hturn, hmro⟩ := hI.mainInv hstage
  rcases hlr : g.lastRound with _ | ⟨ld, gs⟩ <;> rw [hlr] at hm
  · simp at hm
  simp only [Bool.and_eq_true, decide_eq_true_eq] at hm
  obtain ⟨⟨⟨⟨hldq, hgsne⟩, hcsne⟩, hsub⟩, hlencs⟩ := hm
  have hgsne' : gs ≠ [] := by
    cases gs
    · simp at hgsne
    · simp
  obtain ⟨hlen1, hlen3, hpq, hT⟩ : 1 ≤ gs.length ∧ gs.length ≤ 3
      ∧ (some q : Option Pos) = some (ld.nextPow gs.length) ∧ totalCards g = 108 := by
    unfold mainRoundOk at hmro
    rw [hlr] at hmro
    rcases hmro with ⟨hgs, _⟩ | ⟨h1, h3, hp, hTm⟩ | ⟨m, hm2, hp, _, _⟩ | ⟨hp, _⟩
    · exact absurd hgs hgsne'
    · exact ⟨h1, h3, hp, hTm⟩
    · exfalso
      have : q = ld := by injection hp
      exact hldq this.symm
    · cases hp
  have hq : q = ld.nextPow gs.length := by injection hpq
  have hrsg : rhSum g = (g.round_history.dropLast.map roundCards).sum
      + roundCards (ld, gs) := by
    unfold rhSum
    conv_lhs => rw [lastRound_decomp hlr]
    simp
  simp only [runAction] at hrun
  unfold runFollow at hrun
  rw [hlr] at hrun
  simp only [Option.bind_eq_bind, Option.some_bind, Game.setLastRound] at hrun
  rcases hrm : removeList (g.hands.get q) cs with _ | hand' <;> rw [hrm] at hrun
  · cases hrun
  simp only [Option.some_bind] at hrun
  rcases hru : removeList g.unplayed_cards cs with _ | unp' <;> rw [hru] at hrun
  · cases hrun
  simp only [Option.some_bind] at hrun
  have hrml := removeList_length hrm
  -- conservation for any state whose open round gained the played group
  have hTkey : ∀ gg : Game, gg.hands = g.hands.set q hand' →
      gg.kitty = g.kitty → gg.card_list = g.card_list →
      gg.deck_taken = g.deck_taken →
      (gg.round_history.map roundCards).sum
        = (g.round_history.dropLast.map roundCards).sum
          + roundCards (ld, gs ++ [cs]) →
      totalCards gg = 108 := by
    intro gg G1 G2 G3 G4 G5
    have e1 := handsTotal_game_set G1
    rw [totalCards_eq]
    have e5 : rhSum gg = (g.round_history.dropLast.map roundCards).sum
        + roundCards (ld, gs ++ [cs]) := G5
    rw [G2, G3, G4, e5]
    rw [totalCards_eq] at hT
    have e6 : roundCards (ld, gs ++ [cs]) = roundCards (ld, gs) + cs.length := by
      simp [roundCards]
    omega
  -- the two successor shapes
  have hkeyCont : ∀ (newpos : Pos) (gg : Game), gg.hands = g.hands.set q hand' →
      gg.kitty = g.kitty → gg.card_list = g.card_list →
      gg.deck_taken = g.deck_taken →
      gg.round_history = (g.round_history.dropLast ++ [(ld, gs ++ [cs])])
        ++ [(newpos, [])] →
      gg.stage = g.stage → gg.current_chaodi_turn = g.current_chaodi_turn →
      Inv gg (some newpos) := by
    intro newpos gg G1 G2 G3 G4 G5 G6 G7
    have hTgg : totalCards gg = 108 := by
      refine hTkey gg G1 G2 G3 G4 ?_
      rw [G5]
      simp [roundCards]
    refine ⟨by rw [G3]; exact hI.deckLen, by rw [G4, G3]; exact hI.deckTaken,
      ?_, ?_, ?_, ?_, ?_, ?_⟩
    · intro hnm
      rw [G6] at hnm
      exact absurd hstage hnm
    · intro hd2; rw [G6, hstage] at hd2; cases hd2
    · intro hk2; rw [G6, hstage] at hk2; cases hk2
    · intro hc2; rw [G6, hstage] at hc2; cases hc2
    · intro _
      refine ⟨by rw [G2]; exact hk8, by rw [G5]; simp,
        by rw [G7]; exact hturn, ?_⟩
      unfold mainRoundOk Game.lastRound
      rw [G5, List.getLast?_concat]
      exact Or.inl ⟨rfl, hTgg⟩
    · intro _
      rw [G7]
      exact hturn
  have hkeyEnd : ∀ gg : Game, gg.hands = g.hands.set q hand' →
      gg.kitty = g.kitty → gg.card_list = g.card_list →
      gg.deck_taken = g.deck_taken →
      gg.round_history = g.round_history.dropLast ++ [(ld, gs ++ [cs])] →
      gg.stage = g.stage → gg.current_chaodi_turn = g.current_chaodi_turn →
      Inv gg none := by
    intro gg G1 G2 G3 G4 G5 G6 G7
    have hTgg : totalCards gg = 108 := by
      refine hTkey gg G1 G2 G3 G4 ?_
      rw [G5]
      simp
    refine ⟨by rw [G3]; exact hI.deckLen, by rw [G4, G3]; exact hI.deckTaken,
      ?_, ?_, ?_, ?_, ?_, ?_⟩
    · intro hnm
      rw [G6] at hnm
      exact absurd hstage hnm
    · intro hd2; rw [G6, hstage] at hd2; cases hd2
    · intro hk2; rw [G6, hstage] at hk2; cases hk2
    · intro hc2; rw [G6, hstage] at hc2; cases hc2
    · intro _
      refine ⟨by rw [G2]; exact hk8, by rw [G5]; simp,
        by rw [G7]; exact hturn, ?_⟩
      unfold mainRoundOk Game.lastRound
      rw [G5, List.getLast?_concat]
      exact Or.inr (Or.inr (Or.inr ⟨rfl, hTgg⟩))
    · intro _
      rw [G7]
      exact hturn
  have hkeyNoClose : ∀ gg : Game, gg.hands = g.hands.set q hand' →
      gg.kitty = g.kitty → gg.card_list = g.card_list →
      gg.deck_taken = g.deck_taken →
      gg.round_history = g.round_history.dropLast ++ [(ld, gs ++ [cs])] →
      gg.stage = g.stage → gg.current_chaodi_turn = g.current_chaodi_turn →
      (gs ++ [cs]).length ≠ 4 →
      Inv gg (some q.next) := by
    intro gg G1 G2 G3 G4 G5 G6 G7 hne4
    have hTgg : totalCards gg = 108 := by
      refine hTkey gg G1 G2 G3 G4 ?_
      rw [G5]
      simp
    refine ⟨by rw [G3]; exact hI.deckLen, by rw [G4, G3]; exact hI.deckTaken,
      ?_, ?_, ?_, ?_, ?_, ?_⟩
    · intro hnm
      rw [G6] at hnm
      exact absurd hstage hnm
    · intro hd2; rw [G6, hstage] at hd2; cases hd2
    · intro hk2; rw [G6, hstage] at hk2; cases hk2
    · intro hc2; rw [G6, hstage] at hc2; cases hc2
    · intro _
      refine ⟨by rw [G2]; exact hk8, by rw [G5]; simp,
        by rw [G7]; exact hturn, ?_⟩
      unfold mainRoundOk Game.lastRound
      rw [G5, List.getLast?_concat]
      refine Or.inr (Or.inl ⟨by simp, ?_, ?_, hTgg⟩)
      · have : (gs ++ [cs]).length = gs.length + 1 := by simp
        omega
      · have hsucc : q.next = ld.nextPow (gs.length + 1) := by
          rw [hq, ← Pos.nextPow_succ_right]
        rw [hsucc]
        congr 1
        simp
    · intro _
      rw [G7]
      exact hturn
  split at hrun
  case isFalse hne4 =>
    simp only [Option.some.injEq, Prod.mk.injEq] at hrun
    obtain ⟨hg', hp', hr'⟩ := hrun
    subst hp'; subst hr'
    refine hkeyNoClose g' ?_ ?_ ?_ ?_ ?_ ?_ ?_ hne4 <;> rw [← hg']
  case isTrue h4 =>
    rcases hdlr : g.dealer_position with _ | dealer <;> rw [hdlr] at hrun
    · cases hrun
    simp only [Option.some_bind] at hrun
    split at hrun
    case isTrue hempty =>
      split at hrun
      case isTrue hnwin =>
        simp only [if_neg hnwin, Option.some.injEq, Prod.mk.injEq] at hrun
        obtain ⟨hg', hp', hr'⟩ := hrun
        subst hp'; subst hr'
        refine hkeyEnd g' ?_ ?_ ?_ ?_ ?_ ?_ ?_ <;> rw [← hg'] <;> rfl
      case isFalse hnwin =>
        rw [not_not] at hnwin
        simp only [if_pos hnwin, Option.some.injEq, Prod.mk.injEq] at hrun
        obtain ⟨hg', hp', hr'⟩ := hrun
        subst hp'; subst hr'
        refine hkeyEnd g' ?_ ?_ ?_ ?_ ?_ ?_ ?_ <;> rw [← hg'] <;> rfl
    case isFalse hempty =>
      split at hrun
      case isTrue hwin =>
        simp only [Option.some.injEq, Prod.mk.injEq] at hrun
        obtain ⟨hg', hp', hr'⟩ := hrun
        subst hp'; subst hr'
        refine hkeyCont _ g' ?_ ?_ ?_ ?_ ?_ ?_ ?_ <;> rw [← hg'] <;> rfl
      case isFalse hwin =>
        simp only [Option.some.injEq, Prod.mk.injEq] at hrun
        obtain ⟨hg', hp', hr'⟩ := hrun
        subst hp'; subst hr'
        refine hkeyCont _ g' ?_ ?_ ?_ ?_ ?_ ?_ ?_ <;> rw [← hg'] <;> rfl

/-- Any legality-checked engine step preserves the invariant. -/
theorem inv_step {g : Game} {q : Pos} {a : Action} {o : Oracle} {g' : Game}
    {p' : Option Pos} {r : ℚ} (hI : Inv g (some q)) (hwf : wfB g q a = true)
    (hrun : runAction g q a o = some (g', p', r)) : Inv g' p' := by
  cases a with
  | dontDeclare => exact inv_dontDeclare hI hwf hrun
  | declare d => exact inv_declare hI hwf hrun
  | placeKitty c => exact inv_placeKitty hI hwf hrun
  | placeAllKitty cs => exact inv_placeAllKitty hI hwf hrun
  | dontChaodi => exact inv_dontChaodi hI hwf hrun
  | chaodi d => exact inv_chaodi hI hwf hrun
  | lead cs => exact inv_lead hI hwf hrun
  | appendLead pr c => exact inv_appendLead hI hwf hrun
  | endLead cs => exact inv_endLead hI hwf hrun
  | follow cs => exact inv_follow hI hwf hrun

/-- `start_game` on a 108-card configured deck establishes the invariant. -/
theorem inv_start {cfg : Config} (hdeck : (cfg.deck.getD fullDeckList).length = 108)
    {o : Oracle} {g' : Game} {p : Pos}
    (h : startGame (newGame cfg) o = some (g', p)) : Inv g' (some p) := by
  unfold startGame Game.drawCard at h
  simp only [Option.bind_eq_bind, newGame] at h
  rcases hd : cfg.deck.getD fullDeckList with _ | ⟨c, rest⟩
  · rw [hd] at hdeck; simp at hdeck
  rw [hd] at h
  simp only [List.drop_zero, Option.some_bind, Option.some.injEq,
    Prod.mk.injEq] at h
  obtain ⟨hg, hp⟩ := h
  subst hp
  have hcF : (PMap.const ([] : List Card)).get (cfg.dealer_position.getD o.rand)
      = [] := by
    rcases cfg.dealer_position.getD o.rand <;> rfl
  have Hh : g'.hands = (PMap.const []).set (cfg.dealer_position.getD o.rand)
      (addCard ((PMap.const []).get (cfg.dealer_position.getD o.rand)) c) := by
    rw [← hg]
  have Hget : ∀ z : Pos, g'.hands.get z
      = if z = cfg.dealer_position.getD o.rand then [c] else [] := by
    intro z
    rw [Hh, PMap.get_set]
    split
    · rw [hcF]; rfl
    · rcases z <;> rfl
  have Hht : g'.handsTotal = 1 := by
    unfold Game.handsTotal
    rw [Hget, Hget, Hget, Hget]
    rcases hF : cfg.dealer_position.getD o.rand <;> simp [hF]
  have Hcl : g'.card_list = c :: rest := by rw [← hg]
  have Hdt : g'.deck_taken = 1 := by rw [← hg]
  have Hk : g'.kitty = [] := by rw [← hg]
  have Hrh : g'.round_history = [] := by rw [← hg]
  have Hst : g'.stage = .declare_stage := by rw [← hg]
  have Hcdt : g'.current_declaration_turn = none := by rw [← hg]
  have Hcct : g'.current_chaodi_turn = none := by rw [← hg]
  have h108 : g'.card_list.length = 108 := by rw [Hcl, ← hd]; exact hdeck
  refine ⟨h108, by rw [Hdt, h108]; omega, ?_, ?_, ?_, ?_, ?_, ?_⟩
  · intro _
    constructor
    · unfold totalCards
      rw [Hht, Hk, Hrh, Hdt, h108]
      simp
    · intro ld gs hlr
      unfold Game.lastRound at hlr
      rw [Hrh] at hlr
      simp at hlr
  · intro _
    refine ⟨Hcct, Hk, Hrh, ?_⟩
    unfold declTurnOk
    rw [Hcdt]
    refine ⟨cfg.dealer_position.getD o.rand, rfl, by rw [Hdt],
      by rw [Hdt]; omega, by rw [Hht, Hdt], ?_⟩
    intro j hj
    rw [Hget, Hdt]
    interval_cases j
    · simp [Pos.lastPow]
    · have hne : (cfg.dealer_position.getD o.rand).lastPow 1
          ≠ cfg.dealer_position.getD o.rand := by
        rcases cfg.dealer_position.getD o.rand <;> decide
      rw [if_neg hne]
      simp
    · have hne : (cfg.dealer_position.getD o.rand).lastPow 2
          ≠ cfg.dealer_position.getD o.rand := by
        rcases cfg.dealer_position.getD o.rand <;> decide
      rw [if_neg hne]
      simp
    · have hne : (cfg.dealer_position.getD o.rand).lastPow 3
          ≠ cfg.dealer_position.getD o.rand := by
        rcases cfg.dealer_position.getD o.rand <;> decide
      rw [if_neg hne]
      simp
  · intro hk; rw [Hst] at hk; cases hk
  · intro hk; rw [Hst] at hk; cases hk
  · intro hk; rw [Hst] at hk; cases hk
  · intro _; exact Hcct

/-- Every reachable configuration of a game started from a 108-card deck
satisfies the invariant. -/
theorem inv_reach {cfg : Config}
    (hdeck : (cfg.deck.getD fullDeckList).length = 108) :
    ∀ {g : Game} {p : Option Pos}, Reach cfg g p → Inv g p := by
  intro g p h
  induction h with
  | start o g₁ q hs => exact inv_start hdeck hs
  | step hr hwf hrun ih => exact inv_step ih hwf hrun

/-! ## The claims -/

/-- A policy run out of `start_game` only visits reachable configurations. -/
theorem reach_of_start_runPolicy {cfg : Config} {pol : Game → Pos → Action}
    {o o' : Oracle} {g0 : Game} {q0 : Pos} {n : Nat} {g : Game} {p : Option Pos}
    (h0 : startGame (newGame cfg) o = some (g0, q0))
    (h : runPolicy pol o' n g0 q0 = some (g, p)) : Reach cfg g p :=
  reach_runPolicy n (Reach.start o g0 q0 h0) h

/-- C2 (amended): outside a pending (not yet validated) combo lead, every
reachable configuration of a game dealt from a 108-card deck holds exactly
108 cards across the four hands, the kitty, the undealt deck and the round
history. -/
theorem C2_card_conservation {cfg : Config}
    (hdeck : (cfg.deck.getD fullDeckList).length = 108)
    {g : Game} {p : Option Pos} (h : Reach cfg g p)
    (hmid : midLeadB g p = false) : totalCards g = 108 := by
  have hI := inv_reach hdeck h
  by_cases hst : g.stage = .main_stage
  · obtain ⟨_, _, _, hmro⟩ := hI.mainInv hst
    unfold mainRoundOk at hmro
    rcases hlr : g.lastRound with _ | ⟨ld, gs⟩ <;> rw [hlr] at hmro
    · exact hmro.elim
    rcases hmro with ⟨_, hT⟩ | ⟨_, _, _, hT⟩ | ⟨m, hgs, hp, _, _⟩ | ⟨_, hT⟩
    · exact hT
    · exact hT
    · subst hp
      simp [midLeadB, hlr, hgs] at hmid
    · exact hT
  · exact (hI.nonMain hst).1

set_option maxHeartbeats 4000000 in
/-- Closed instance of the conservation theorem, at the state right after
the dealer's first draw. -/
theorem C2_card_conservation_witness : totalCards startG1.1 = 108 :=
  @C2_card_conservation cfg1 (by rfl) startG1.1 (some startG1.2)
    (Reach.start {} startG1.1 startG1.2 (by rfl)) (by rfl)

set_option maxHeartbeats 4000000 in
/-- C2 (counterexample to the unconditional claim): 113 steps into the combo
game the leader's pending lead group is recorded in the round history while
its cards are still in the leader's hand, so the conserved quantity is 109,
not 108. -/
theorem C2_counterexample :
    ∃ g p, Reach cfg2 g p ∧ totalCards g ≠ 108 := by
  refine ⟨(state2 113).1, (state2 113).2, ?_, by decide⟩
  exact @reach_of_start_runPolicy cfg2 polDeclare {} {} startG2.1 startG2.2 113
    (state2 113).1 (state2 113).2 (by rfl) (by rfl)

set_option maxHeartbeats 4000000 in
/-- C1: at a reachable state of the played-out game where the two sides'
cumulative scores differ (challengers 10, defenders 0), the observation's
defender-points field reports the challengers' score, not the defenders' —
`get_observation` (line 145) copies `opponent_points` into both score
fields. -/
theorem C1_defender_points_bug :
    ∃ g p, Reach cfg1 g p
      ∧ g.opponent_points = 10 ∧ g.defender_points = 0
      ∧ (getObservation g .north).defender_points = 10
      ∧ (getObservation g .north).opponent_points = 10
      ∧ (getObservation g .north).defender_points ≠ g.defender_points := by
  refine ⟨(state1 136).1, (state1 136).2, ?_, by rfl, by rfl, by rfl, by rfl, ?_⟩
  · exact @reach_of_start_runPolicy cfg1 polDeclare {} {} startG1.1 startG1.2 136
      (state1 136).1 (state1 136).2 (by rfl) (by rfl)
  · intro h
    have h1 : (getObservation (state1 136).1 Pos.north).defender_points = 10 := by
      rfl
    have h2 : (state1 136).1.defender_points = 0 := by rfl
    rw [h1, h2] at h
    exact absurd h (by decide)

/-- C3: the effective-rank tiers of `get_rank`: the jokers are the two fixed
sentinels 18 and 17; a dominant-rank card of the dominant suit (or under a
no-trump suit) ranks 16; a dominant-rank card of another suit ranks 15; a
card below the dominant rank is shifted up by one; a card above it keeps its
natural rank; and every card not of the dominant rank stays strictly below
the off-suit dominant tier. -/
theorem C3_effective_rank (ts : TrumpSuit) (ns : NatSuit) (r tr : Nat)
    (hr : r ≤ 14) (htr : tr ≤ 14) :
    get_rank Card.dj ts tr = 18
    ∧ get_rank Card.xj ts tr = 17
    ∧ (r = tr → (ts.matchesNat ns = true ∨ ts.is_NT = true) →
        get_rank (Card.norm ns r) ts tr = 16)
    ∧ (r = tr → ts.matchesNat ns = false → ts.is_NT = false →
        get_rank (Card.norm ns r) ts tr = 15)
    ∧ (r < tr → get_rank (Card.norm ns r) ts tr = r + 1)
    ∧ (tr < r → get_rank (Card.norm ns r) ts tr = r)
    ∧ (r ≠ tr → get_rank (Card.norm ns r) ts tr < 15) := by
  have key_lt : r < tr → get_rank (Card.norm ns r) ts tr = r + 1 := by
    intro hlt
    simp only [get_rank]
    rw [if_neg (by rintro ⟨he, _⟩; omega), if_neg (by omega), if_pos hlt]
  have key_gt : tr < r → get_rank (Card.norm ns r) ts tr = r := by
    intro hgt
    simp only [get_rank]
    rw [if_neg (by rintro ⟨he, _⟩; omega), if_neg (by omega), if_neg (by omega)]
  refine ⟨rfl, rfl, ?_, ?_, key_lt, key_gt, ?_⟩
  · intro he hm
    simp only [get_rank]
    rw [if_pos ⟨he, by simpa using hm⟩]
  · intro he hm hnt
    simp only [get_rank]
    rw [if_neg (by simp [hm, hnt]), if_pos he]
  · intro hne
    rcases Nat.lt_or_ge r tr with hlt | hge
    · rw [key_lt hlt]; omega
    · have hgt : tr < r := by omega
      rw [key_gt hgt]; omega

/-- Closed instance of the rank-tier theorem at the 5♥ card under a diamond
trump of rank 2. -/
theorem C3_effective_rank_witness :
    get_rank Card.dj TrumpSuit.diamond 2 = 18
    ∧ get_rank Card.xj TrumpSuit.diamond 2 = 17
    ∧ (5 = 2 → (TrumpSuit.diamond.matchesNat NatSuit.heart = true
        ∨ TrumpSuit.diamond.is_NT = true) →
        get_rank (Card.norm NatSuit.heart 5) TrumpSuit.diamond 2 = 16)
    ∧ (5 = 2 → TrumpSuit.diamond.matchesNat NatSuit.heart = false →
        TrumpSuit.diamond.is_NT = false →
        get_rank (Card.norm NatSuit.heart 5) TrumpSuit.diamond 2 = 15)
    ∧ (5 < 2 → get_rank (Card.norm NatSuit.heart 5) TrumpSuit.diamond 2 = 5 + 1)
    ∧ (2 < 5 → get_rank (Card.norm NatSuit.heart 5) TrumpSuit.diamond 2 = 5)
    ∧ (5 ≠ 2 → get_rank (Card.norm NatSuit.heart 5) TrumpSuit.diamond 2 < 15) :=
  C3_effective_rank TrumpSuit.diamond NatSuit.heart 5 2 (by decide) (by decide)

/-- C4 (amended): once the hands hold 100 cards, a pass with no declaration
turn pending does not deal the kitty or change stage; it unconditionally
starts the trailing confirmation lap — whether or not anyone declared — by
handing the turn to the next seat. -/
theorem C4_trailing_lap {g : Game} {q : Pos} {o : Oracle}
    (hct : g.current_declaration_turn = none) (hht : ¬ g.handsTotal < 100) :
    ∃ g', runDontDeclare g q o = some (g', some q.next, 0)
      ∧ g'.stage = g.stage
      ∧ g'.deck_taken = g.deck_taken
      ∧ g'.hands = g.hands
      ∧ g'.current_declaration_turn = some q.next := by
  unfold runDontDeclare
  rw [hct, if_neg (by simp), if_neg hht]
  exact ⟨_, rfl, rfl, rfl, rfl, rfl⟩

set_option maxHeartbeats 4000000 in
/-- Closed instance of the trailing-lap theorem at the pass-only state where
all 100 cards are out and nobody has declared. -/
theorem C4_trailing_lap_witness :
    ∃ g', runDontDeclare c4g .east {} = some (g', some Pos.east.next, 0)
      ∧ g'.stage = c4g.stage
      ∧ g'.deck_taken = c4g.deck_taken
      ∧ g'.hands = c4g.hands
      ∧ g'.current_declaration_turn = some Pos.east.next :=
  C4_trailing_lap (by rfl) (by decide)

set_option maxHeartbeats 4000000 in
/-- C4 (counterexample to the one-batch claim): in the pass-only game, after
100 cards are out with no declaration ever made, the stage is still the
drawing stage and a declaration turn is pending — the kitty was not dealt in
one batch and turn-taking continues. -/
theorem C4_counterexample :
    ∃ g t, Reach cfg1 g (some t) ∧ g.deck_taken = 100 ∧ g.declarations = []
      ∧ g.stage = Stage.declare_stage ∧ g.current_declaration_turn = some t := by
  refine ⟨(statePass1 100).1, Pos.north, ?_, by decide, by decide, by decide,
    by decide⟩
  exact @reach_of_start_runPolicy cfg1 polPass {} {} startG1.1 startG1.2 100
    (statePass1 100).1 (some Pos.north) (by rfl) (by rfl)

/-- C5 (amended): a single-card kitty discard returns reward 0 for each of
the first seven discards — the shaped reward (trump and joker penalties,
suit-clearing credit) is computed but returned only on the eighth discard,
the one that fills the kitty. -/
theorem C5_kitty_reward {g : Game} {q : Pos} {c : Card} {g' : Game}
    {p' : Option Pos} {r : ℚ} {hand' : List Card}
    (hrm : removeCard (g.hands.get q) c = some hand')
    (hrun : runPlaceKitty g q c = some (g', p', r)) :
    (g.kitty.length < 7 → r = 0)
    ∧ (g.kitty.length = 7 → r =
        (1/5 : ℚ) * ((suitsHeld (g.hands.get q) g.dominant_suit g.dominant_rank : ℚ)
            - (suitsHeld hand' g.dominant_suit g.dominant_rank : ℚ))
          - (if countSuit hand' .trump g.dominant_suit g.dominant_rank
                < countSuit (g.hands.get q) .trump g.dominant_suit g.dominant_rank
             then (1/2 : ℚ) else 0)
          - (if 15 ≤ get_rank c g.dominant_suit g.dominant_rank then 1 else 0)) := by
  unfold runPlaceKitty at hrun
  split at hrun
  case isFalse => cases hrun
  case isTrue hk8 =>
    simp only [Option.bind_eq_bind] at hrun
    rw [hrm] at hrun
    simp only [Option.some_bind] at hrun
    split at hrun
    case isTrue h8 =>
      have h8' : g.kitty.length + 1 = 8 := by
        simpa [addCard] using h8
      constructor
      · intro h7
        omega
      · intro _
        split at hrun <;> split at hrun <;>
          (simp only [Option.some.injEq, Prod.mk.injEq] at hrun
           exact hrun.2.2.symm)
    case isFalse h8 =>
      constructor
      · intro _
        simp only [Option.some.injEq, Prod.mk.injEq] at hrun
        exact hrun.2.2.symm
      · intro h7
        exfalso
        exact h8 (by simp [addCard, h7])

/-- Closed instance of the discard-reward theorem at the eighth discard of
the played-out game. -/
theorem C5_kitty_reward_witness :
    (c5g.kitty.length < 7 → c5res.2.2 = 0)
    ∧ (c5g.kitty.length = 7 → c5res.2.2 =
        (1/5 : ℚ) * ((suitsHeld (c5g.hands.get .north) c5g.dominant_suit
              c5g.dominant_rank : ℚ)
            - (suitsHeld c5hand c5g.dominant_suit c5g.dominant_rank : ℚ))
          - (if countSuit c5hand .trump c5g.dominant_suit c5g.dominant_rank
                < countSuit (c5g.hands.get .north) .trump c5g.dominant_suit
                    c5g.dominant_rank
             then (1/2 : ℚ) else 0)
          - (if 15 ≤ get_rank c5card c5g.dominant_suit c5g.dominant_rank
             then 1 else 0)) :=
  C5_kitty_reward (by rfl) (by rfl)

set_option maxHeartbeats 4000000 in
/-- C5 (counterexample to the per-discard shaped reward): at the reachable
state facing the first kitty discard, discarding the big joker is a legal
move whose shaped reward is −3/2 — the discard lowers the trump count
(penalty 1/2) and the joker's effective rank is in the penalised tier
(penalty 1); no natural suit is cleared — yet the engine returns reward 0. -/
theorem C5_counterexample :
    ∃ g q g' p' r, Reach cfg1 g (some q)
      ∧ wfB g q (Action.placeKitty Card.dj) = true
      ∧ runAction g q (Action.placeKitty Card.dj) {} = some (g', p', r)
      ∧ r = 0
      ∧ g.kitty = []
      ∧ suitsHeld ((removeCard (g.hands.get q) Card.dj).getD [])
          g.dominant_suit g.dominant_rank
        = suitsHeld (g.hands.get q) g.dominant_suit g.dominant_rank
      ∧ countSuit ((removeCard (g.hands.get q) Card.dj).getD []) .trump
          g.dominant_suit g.dominant_rank
        < countSuit (g.hands.get q) .trump g.dominant_suit g.dominant_rank
      ∧ 15 ≤ get_rank Card.dj g.dominant_suit g.dominant_rank := by
  refine ⟨(state1 104).1, Pos.north, c5bugres.1, c5bugres.2.1, c5bugres.2.2, ?_,
    by rfl, by rfl, by rfl, by rfl, by rfl, by decide, by decide⟩
  exact @reach_of_start_runPolicy cfg1 polDeclare {} {} startG1.1 startG1.2 104
    (state1 104).1 (some Pos.north) (by rfl) (by rfl)

/-- C6 (amended): what the engine enforces on accepted declarations: a
declare during the drawing stage must strictly raise the bid level, while a
counter-bid (chaodi) must only strictly raise the suit-weighted chaodi
level, which permits equal bid levels. -/
theorem C6_level_monotonicity {g : Game} {q : Pos} {d last : Declaration} :
    (wfB g q (Action.declare d) = true → g.declarations.getLast? = some last →
      last.level < d.level)
    ∧ (wfB g q (Action.chaodi d) = true → g.declarations.getLast? = some last →
      Declaration.chaodi_level last.suit last.level
        < Declaration.chaodi_level d.suit d.level) := by
  constructor
  · intro hwf hlast
    unfold wfB at hwf
    rw [hlast] at hwf
    simp only [Bool.and_eq_true, decide_eq_true_eq] at hwf
    exact hwf.2.1
  · intro hwf hlast
    unfold wfB at hwf
    rw [hlast] at hwf
    simp only [Bool.and_eq_true, decide_eq_true_eq] at hwf
    exact hwf.2

set_option maxHeartbeats 4000000 in
/-- C6 (counterexample to strictly increasing bid levels): the completed
played-out game accepted two declarations of equal level 1, by the same
seat and in different suits — neither strictly increasing nor a
re-affirmation. -/
theorem C6_counterexample :
    ∃ g, Reach cfg1 g none
      ∧ g.declarations.map Declaration.level = [1, 1]
      ∧ g.declarations.map Declaration.suit = [TrumpSuit.diamond, TrumpSuit.club]
      ∧ g.declarations.map Declaration.absolute_position = [Pos.west, Pos.west] := by
  refine ⟨(state1 224).1, ?_, by rfl, by rfl, by rfl⟩
  exact @reach_of_start_runPolicy cfg1 polDeclare {} {} startG1.1 startG1.2 224
    (state1 224).1 none (by rfl) (by rfl)

/-- C7 (amended): a declare attempt whose level merely equals the standing
declaration's level is always rejected — both by the legal-action cascade
and by the engine's own assertion — even in the re-affirmation position
(same suit, different bidder). -/
theorem C7_no_reaffirmation {g : Game} {q : Pos} {d last : Declaration}
    (hlast : g.declarations.getLast? = some last) (heq : last.level = d.level) :
    wfB g q (Action.declare d) = false ∧ runDeclare g q d = none := by
  constructor
  · unfold wfB
    rw [hlast]
    simp [heq]
  · simp [runDeclare, hlast, heq]

set_option maxHeartbeats 4000000 in
/-- Closed instance of the rejection theorem at the reachable re-affirmation
state: West holds the standing single-diamond declaration, East holds the
other 2♦ and attempts the equal-level same-suit re-affirmation. -/
theorem C7_no_reaffirmation_witness :
    wfB (state3 3).1 Pos.east
        (Action.declare ⟨TrumpSuit.diamond, 0, Pos.east, none⟩) = false
      ∧ runDeclare (state3 3).1 Pos.east ⟨TrumpSuit.diamond, 0, Pos.east, none⟩
        = none :=
  C7_no_reaffirmation (by rfl) (by rfl)

set_option maxHeartbeats 4000000 in
/-- C7 (counterexample to the re-affirmation rule): a reachable state where
the spec's re-affirmation condition holds — East's attempt has the standing
level, a different bidder and the running suit, and East holds a qualifying
card — yet the attempt is absent from the legal actions and the engine
rejects it. -/
theorem C7_counterexample :
    ∃ g last, Reach cfg3 g (some Pos.east)
      ∧ g.stage = Stage.declare_stage
      ∧ g.declarations.getLast? = some last
      ∧ last.suit = TrumpSuit.diamond ∧ last.level = 0
      ∧ last.absolute_position = Pos.west
      ∧ (TrumpSuit.diamond, 0) ∈ specDeclOptions (g.hands.get Pos.east)
          g.dominant_rank
      ∧ wfB g Pos.east (Action.declare ⟨TrumpSuit.diamond, 0, Pos.east, none⟩)
        = false
      ∧ runAction g Pos.east (Action.declare ⟨TrumpSuit.diamond, 0, Pos.east, none⟩)
          {} = none := by
  refine ⟨(state3 3).1, ⟨TrumpSuit.diamond, 0, Pos.west, none⟩, ?_, by rfl, by rfl,
    by rfl, by rfl, by rfl, by decide, by rfl, by rfl⟩
  exact @reach_of_start_runPolicy cfg3 polSingleDecl {} {} startG3.1 startG3.2 3
    (state3 3).1 (some Pos.east) (by rfl) (by rfl)

set_option maxHeartbeats 1000000 in
/-- C8: whenever a follow ends the game, the stored final rewards are the
bucket of the challengers' final cumulative score and its exact negation,
and the bucket obeys the fixed thresholds: ≥ 80 gives 1 plus one unit per
full 40 points above 80 (so exactly 80 gives 1), 40–79 gives −1, 1–39 gives
−2, and 0 or less gives −3. -/
theorem C8_final_reward {g : Game} {q : Pos} {cs : List Card} {g' : Game} {r : ℚ}
    (hrun : runFollow g q cs = some (g', none, r)) :
    (g'.final_opponent_reward = some (opponentRewardBucket g'.opponent_points)
      ∧ g'.final_defender_reward = some (-(opponentRewardBucket g'.opponent_points)))
    ∧ (∀ s : Int,
        (80 ≤ s → opponentRewardBucket s = 1 + (s - 80) / 40)
        ∧ (40 ≤ s → s < 80 → opponentRewardBucket s = -1)
        ∧ (1 ≤ s → s < 40 → opponentRewardBucket s = -2)
        ∧ (s ≤ 0 → opponentRewardBucket s = -3))
    ∧ opponentRewardBucket 80 = 1 := by
  refine ⟨?_, ?_, by decide⟩
  · unfold runFollow at hrun
    rcases hlr : g.lastRound with _ | ⟨ld, gs⟩ <;> rw [hlr] at hrun
    · cases hrun
    simp only [Option.bind_eq_bind, Option.some_bind, Game.setLastRound] at hrun
    rcases hrm : removeList (g.hands.get q) cs with _ | hand' <;> rw [hrm] at hrun
    · cases hrun
    simp only [Option.some_bind] at hrun
    rcases hru : removeList g.unplayed_cards cs with _ | unp' <;> rw [hru] at hrun
    · cases hrun
    simp only [Option.some_bind] at hrun
    split at hrun
    case isFalse =>
      simp only [Option.some.injEq, Prod.mk.injEq] at hrun
      obtain ⟨_, hp', _⟩ := hrun
      cases hp'
    case isTrue h4 =>
      rcases hdlr : g.dealer_position with _ | dealer <;> rw [hdlr] at hrun
      · cases hrun
      simp only [Option.some_bind] at hrun
      split at hrun
      case isTrue hempty =>
        split at hrun <;>
          (simp only [Option.some.injEq, Prod.mk.injEq] at hrun
           obtain ⟨hg', hp', hr'⟩ := hrun
           constructor <;> rw [← hg'] <;> rfl)
      case isFalse hempty =>
        split at hrun <;>
          (simp only [Option.some.injEq, Prod.mk.injEq] at hrun
           obtain ⟨hg', hp', hr'⟩ := hrun
           cases hp')
  · intro s
    refine ⟨?_, ?_, ?_, ?_⟩
    · intro h80
      unfold opponentRewardBucket
      rw [if_pos h80]
    · intro h40 h80
      unfold opponentRewardBucket
      rw [if_neg (by omega), if_pos h40]
    · intro h1 h40
      unfold opponentRewardBucket
      rw [if_neg (by omega), if_neg (by omega), if_pos (by omega)]
    · intro h0
      unfold opponentRewardBucket
      rw [if_neg (by omega), if_neg (by omega), if_neg (by omega)]

set_option maxHeartbeats 4000000 in
/-- Closed instance of the final-reward theorem at the last follow of the
played-out game (challengers finish with 20 points, bucket −2). -/
theorem C8_final_reward_witness :
    (c8res.1.final_opponent_reward
        = some (opponentRewardBucket c8res.1.opponent_points)
      ∧ c8res.1.final_defender_reward
        = some (-(opponentRewardBucket c8res.1.opponent_points)))
    ∧ (∀ s : Int,
        (80 ≤ s → opponentRewardBucket s = 1 + (s - 80) / 40)
        ∧ (40 ≤ s → s < 80 → opponentRewardBucket s = -1)
        ∧ (1 ≤ s → s < 40 → opponentRewardBucket s = -2)
        ∧ (s ≤ 0 → opponentRewardBucket s = -3))
    ∧ opponentRewardBucket 80 = 1 :=
  @C8_final_reward c8g .east [Card.norm .spade 8] c8res.1 c8res.2.2 (by rfl)

/-- C9 (amended): the observation of a seat is determined by the game
components `get_observation` actually reads — which include every seat's
full hidden hand (leaked through the actual-hand fields) and the
challengers' score, but not the defenders'. -/
theorem C9_observation_dependency {g1 g2 : Game} {s : Pos}
    (hh : g1.hands = g2.hands)
    (hpub : g1.public_cards = g2.public_cards)
    (hst : g1.stage = g2.stage)
    (hdr : g1.dominant_rank = g2.dominant_rank)
    (hdec : g1.declarations = g2.declarations)
    (hcdt : g1.current_declaration_turn = g2.current_declaration_turn)
    (hdp : g1.dealer_position = g2.dealer_position)
    (hop : g1.opponent_points = g2.opponent_points)
    (hrh : g1.round_history = g2.round_history)
    (hup : g1.unplayed_cards = g2.unplayed_cards)
    (hct : g1.chaodi_times = g2.chaodi_times)
    (hko : g1.kitty_owner = g2.kitty_owner)
    (hk : g1.kitty = g2.kitty)
    (hcct : g1.current_chaodi_turn = g2.current_chaodi_turn)
    (hov : g1.oracle_value = g2.oracle_value) :
    getObservation g1 s = getObservation g2 s := by
  simp only [getObservation, hh, hpub, hst, hdr, hdec, hcdt, hdp, hop, hrh,
    hup, hct, hko, hk, hcct, hov]

/-- Closed instance of the dependency theorem: two states differing only in
the defenders' cumulative score yield identical observations (the
defender-points field does not even depend on it). -/
theorem C9_observation_dependency_witness :
    getObservation startG1.1 Pos.north = getObservation c9twin Pos.north :=
  C9_observation_dependency rfl rfl rfl rfl rfl rfl rfl rfl rfl rfl rfl rfl rfl
    rfl rfl

set_option maxHeartbeats 4000000 in
/-- C9 (counterexample to the hiding property): two reachable states agreeing
on everything North can legitimately see — North's own hand, all public
cards, the unplayed pool, even the undealt remainder of the deck — but
differing in West's hidden hand, yield different observations for North:
the observation copies the other seats' actual hands. -/
theorem C9_counterexample :
    ∃ gA gB p, Reach cfg1 gA p ∧ Reach cfg4 gB p
      ∧ gA.hands.get .north = gB.hands.get .north
      ∧ gA.public_cards = gB.public_cards
      ∧ gA.unplayed_cards = gB.unplayed_cards
      ∧ gA.card_list.drop gA.deck_taken = gB.card_list.drop gB.deck_taken
      ∧ gA.stage = gB.stage
      ∧ gA.declarations = gB.declarations
      ∧ gA.kitty = gB.kitty
      ∧ gA.hands.get .west ≠ gB.hands.get .west
      ∧ getObservation gA .north ≠ getObservation gB .north := by
  refine ⟨(statePass1 3).1, (statePass4 3).1, (statePass1 3).2, ?_, ?_,
    by rfl, by rfl, by rfl, by rfl, by rfl, by rfl, by rfl, by decide, by decide⟩
  · exact @reach_of_start_runPolicy cfg1 polPass {} {} startG1.1 startG1.2 3
      (statePass1 3).1 (statePass1 3).2 (by rfl) (by rfl)
  · exact @reach_of_start_runPolicy cfg4 polPass {} {} startG4.1 startG4.2 3
      (statePass4 3).1 (statePass1 3).2 (by rfl) (by rfl)

/-- C10 (amended): with the kitty already full (8 cards), placing one more
card is rejected outright, but the batch placement has no capacity check:
it succeeds and silently mutates the state, growing the kitty past 8. -/
theorem C10_kitty_capacity {g : Game} {q : Pos} {c : Card} {cs : List Card}
    {hand' : List Card} (hk : 8 ≤ g.kitty.length)
    (hrm : removeList (g.hands.get q) cs = some hand') :
    runPlaceKitty g q c = none
    ∧ ∃ g' p', runPlaceAllKitty g q cs = some (g', p', 0)
        ∧ g'.kitty = addList g.kitty cs := by
  constructor
  · unfold runPlaceKitty
    rw [if_neg (by omega)]
  · unfold runPlaceAllKitty
    simp only [Option.bind_eq_bind]
    rw [hrm]
    simp only [Option.some_bind]
    split <;> split <;> exact ⟨_, _, rfl, rfl⟩

set_option maxHeartbeats 4000000 in
/-- Closed instance of the capacity theorem at the reachable full-kitty
state. -/
theorem C10_kitty_capacity_witness :
    runPlaceKitty c10g .west c10card = none
    ∧ ∃ g' p', runPlaceAllKitty c10g .west [c10card] = some (g', p', 0)
        ∧ g'.kitty = addList c10g.kitty [c10card] :=
  C10_kitty_capacity (by decide) (by rfl)

set_option maxHeartbeats 4000000 in
/-- C10 (counterexample to fail-fast kitty placement): at the reachable state
whose kitty holds 8 cards, the batch placement silently succeeds and leaves
a 9-card kitty, instead of aborting. -/
theorem C10_counterexample :
    ∃ g g' p' r, Reach cfg1 g (some Pos.west)
      ∧ g.kitty.length = 8
      ∧ runPlaceKitty g Pos.west ((g.hands.get Pos.west).headD Card.xj) = none
      ∧ runPlaceAllKitty g Pos.west [(g.hands.get Pos.west).headD Card.xj]
          = some (g', p', r)
      ∧ g'.kitty.length = 9 := by
  refine ⟨c10g, c10res.1, c10res.2.1, c10res.2.2, ?_, by rfl, by rfl, by rfl,
    by rfl⟩
  exact @reach_of_start_runPolicy cfg1 polDeclare {} {} startG1.1 startG1.2 112
    c10g (some Pos.west) (by rfl) (by rfl)

end ShengJi
